import Mathlib

/-!
Verification of the ReadFish stealth-reading application.

This file shallowly embeds the pure core of the repository's Python modules
(`file_utils.py`, `epub_utils.py`, `reader_window.py`, `bookmark_manager.py`,
`config_manager.py`, `history_manager.py`, `table_of_contents.py`) as Lean
definitions and proves properties of them.

Modelling conventions:
* Python strings are Lean `String`s (sequences of Unicode scalar values);
  character classification helpers (`str.strip`, `str.lower`, `str.isalpha`,
  `str.isdigit`) are modelled on the ASCII range, which is the range the
  relevant call sites exercise.
* Python `float` arithmetic is modelled with exact rationals `ℚ`; the
  quantities compared in the sources are far from rounding boundaries.
* File-system and library boundaries (`os.path.exists`, zip archives,
  `ebooklib`) are modelled as explicit input records.
-/

namespace ReadFish

/-! ## Python string helpers -/

/-- Whitespace characters stripped by Python `str.strip()` (ASCII range). -/
def pyIsSpace (c : Char) : Bool :=
  c = ' ' || c = '\t' || c = '\n' || c = '\x0d' || c = '\x0b' || c = '\x0c'

/-- Drop the trailing characters satisfying `p`. -/
def dropWhileEnd (p : Char → Bool) (l : List Char) : List Char :=
  l.foldr (fun c acc => if acc.isEmpty && p c then [] else c :: acc) []

/-- `str.strip()` on the character list: drop whitespace from both ends. -/
def pyStripList (l : List Char) : List Char :=
  dropWhileEnd pyIsSpace (l.dropWhile pyIsSpace)

/-- Python `str.strip()`. -/
def pyStrip (s : String) : String :=
  ⟨pyStripList s.data⟩

/-! ## `file_utils._validate_content_encoding` -/

/-- CJK ideograph test `'一' <= char <= '鿿'` from
`file_utils._validate_content_encoding`. -/
def isCJKIdeograph (c : Char) : Bool :=
  0x4e00 ≤ c.toNat && c.toNat ≤ 0x9fff

/-- `chapter_indicators = ['第', '章', '卷', '节', '篇', '回', '部', '集']`
(each a one-character string, so `indicator in sample` is character
membership). -/
def chapterIndicatorChars : List Char :=
  ['第', '章', '卷', '节', '篇', '回', '部', '集']

/-- `chinese_punctuation = ['，', '。', '！', '？', '；', '：', '、']`. -/
def chinesePunctuationChars : List Char :=
  ['，', '。', '！', '？', '；', '：', '、']

/-- Embedding of `file_utils._validate_content_encoding` (lines 61-106).
The float comparisons `chinese_ratio > 0.1` and `replacement_ratio > 0.1`
(with `ratio = count / total_chars`) are rendered by the exact
cross-multiplied test `10 * count > total_chars`, equivalent for
`total_chars > 0`, which holds at both comparison sites. -/
def validate_content_encoding (content : String) : Bool :=
  if content = "" || (pyStrip content).length < 10 then
    false
  else
    let sample := content.data.take 1000
    let chineseChars := (sample.filter isCJKIdeograph).length
    let totalChars := sample.length
    if totalChars = 0 then
      false
    else
      let hasChapterIndicators := chapterIndicatorChars.any (fun c => sample.contains c)
      let hasChinesePunctuation := chinesePunctuationChars.any (fun c => sample.contains c)
      let replacementChars := (sample.filter (· = '�')).length
      if 10 * replacementChars > totalChars then
        false
      else
        decide (10 * chineseChars > totalChars) || hasChapterIndicators ||
          hasChinesePunctuation

/-! ## `reader_window.page_up` / `page_down`, multi-line branch -/

/-- Multi-line branch of `reader_window.page_down` (lines 458-464):
`max_start_line = max(0, len(text_lines) - lines_per_page)`, and the index
advances by `lines_per_page`, clamped to `max_start_line`, only while it is
below `max_start_line`.  Natural-number subtraction renders Python's
`max(0, a - b)`. -/
def page_down_multi (totalLines linesPerPage idx : ℕ) : ℕ :=
  let maxStartLine := totalLines - linesPerPage
  if idx < maxStartLine then min (idx + linesPerPage) maxStartLine else idx

/-- Multi-line branch of `reader_window.page_up` (lines 426-430): while the
index is positive it decreases by `lines_per_page`, clamped below by 0. -/
def page_up_multi (linesPerPage idx : ℕ) : ℕ :=
  if 0 < idx then idx - linesPerPage else idx

/-! ## Association-list model of Python `dict` (string keys, insertion order) -/

/-- Python `dict` assignment `m[k] = v`: replace the value in place when the
key is present, append otherwise. -/
def setAssoc {α : Type} : List (String × α) → String → α → List (String × α)
  | [], k, v => [(k, v)]
  | (a, b) :: m, k, v => if a = k then (k, v) :: m else (a, b) :: setAssoc m k v

/-- Python `dict.get(k)`: the value at the first matching key, if any. -/
def getAssoc {α : Type} (m : List (String × α)) (k : String) : Option α :=
  (m.find? (fun p => p.1 = k)).map (·.2)

/-! ## `history_manager.HistoryManager` -/

/-- One record of `history_data["books"]` (schema in
`history_manager.py` lines 28-42).  `reading_progress` is a Python float,
modelled exactly in `ℚ`. -/
structure HistBookRecord where
  file_path : String
  title : String
  current_line_index : ℤ
  current_char_offset : ℤ
  total_lines : ℤ
  last_read_time : String
  reading_progress : ℚ
deriving Repr, DecidableEq

/-- `history_data`: the persisted history document. -/
structure HistoryData where
  last_read_book : Option String
  books : List (String × HistBookRecord)
deriving Repr, DecidableEq

/-- `HistoryManager.get_book_id`: the MD5 hex digest of the path.  The hash
is an external library routine; it is modelled as the identity encoding of
the path, which preserves the keying behaviour the claims depend on. -/
def hist_book_id (file_path : String) : String := file_path

/-- Embedding of `history_manager.update_reading_position` (lines 104-148):
computes the clamped reading progress (0.0 when `total_lines <= 0`, with no
division), upserts the book record with the current timestamp `now`, and
sets `last_read_book`.  Float arithmetic is modelled exactly in `ℚ`. -/
def update_reading_position (h : HistoryData) (now : String)
    (file_path title : String)
    (current_line_index current_char_offset total_lines : ℤ) : HistoryData :=
  let book_id := hist_book_id file_path
  let reading_progress : ℚ :=
    if 0 < total_lines then
      min 1 (max 0 ((current_line_index : ℚ) / (total_lines : ℚ)))
    else 0
  { last_read_book := some book_id
    books := setAssoc h.books book_id
      { file_path := file_path
        title := title
        current_line_index := current_line_index
        current_char_offset := current_char_offset
        total_lines := total_lines
        last_read_time := now
        reading_progress := reading_progress } }

/-- Embedding of `history_manager.get_reading_position` (lines 150-160). -/
def get_reading_position (h : HistoryData) (file_path : String) :
    Option HistBookRecord :=
  getAssoc h.books (hist_book_id file_path)

/-! ## Python values and `config_manager.ConfigManager` -/

/-- Python values occurring in the configuration dictionary: ints, floats
(modelled exactly in `ℚ`), strings, booleans and lists. -/
inductive PyVal
  | int (n : ℤ)
  | float (q : ℚ)
  | str (s : String)
  | bool (b : Bool)
  | list (l : List PyVal)

/-- Numeric view used by Python `<` against a numeric literal: ints and
floats compare by value, `bool` counts as 0/1, everything else is a
`TypeError` (`none`). -/
def pyNum : PyVal → Option ℚ
  | .int n => some (n : ℚ)
  | .float q => some q
  | .bool b => some (if b then 1 else 0)
  | _ => none

/-- Python `a < b` for the comparisons reached in `validate_config` (one
side is always a numeric literal). -/
def pyLtB (a b : PyVal) : Option Bool :=
  match pyNum a, pyNum b with
  | some x, some y => some (decide (x < y))
  | _, _ => none

/-- Python `min(a, b)`: `b` if `b < a` else `a` (first argument on ties);
`TypeError` when the comparison is unsupported. -/
def pyMin (a b : PyVal) : Except String PyVal :=
  match pyLtB b a with
  | some true => .ok b
  | some false => .ok a
  | none => .error "TypeError"

/-- Python `max(a, b)`: `b` if `a < b` else `a` (first argument on ties). -/
def pyMax (a b : PyVal) : Except String PyVal :=
  match pyLtB a b with
  | some true => .ok b
  | some false => .ok a
  | none => .error "TypeError"

/-- Python truthiness `bool(x)`. -/
def pyBool : PyVal → Bool
  | .int n => n != 0
  | .float q => q != 0
  | .str s => s != ""
  | .bool b => b
  | .list l => !l.isEmpty

/-- Decimal digit run with Python's single-underscore separators
(`int("1_2")` is legal, leading/trailing/double underscores are not),
accumulating the value. -/
def decDigitsAux : List Char → ℕ → Option ℕ
  | [], acc => some acc
  | '_' :: c :: rest, acc =>
    if c.isDigit then decDigitsAux rest (acc * 10 + (c.toNat - 48)) else none
  | c :: rest, acc =>
    if c.isDigit then decDigitsAux rest (acc * 10 + (c.toNat - 48)) else none

/-- Nonempty decimal digit run (first char must be a digit). -/
def decDigits : List Char → Option ℕ
  | [] => none
  | c :: rest => if c.isDigit then decDigitsAux rest (c.toNat - 48) else none

/-- Python `int(s)` for strings: optional surrounding whitespace, optional
sign, then decimal digits with single underscores. -/
def pyStrToInt (s : String) : Option ℤ :=
  match pyStripList s.data with
  | '-' :: rest => (decDigits rest).map (fun n => -(n : ℤ))
  | '+' :: rest => (decDigits rest).map (fun n => (n : ℤ))
  | l => (decDigits l).map (fun n => (n : ℤ))

/-- Python `int(x)`: ints unchanged, bools to 0/1, floats truncated toward
zero, strings parsed in base 10, everything else a `TypeError`. -/
def pyToInt : PyVal → Except String ℤ
  | .int n => .ok n
  | .bool b => .ok (if b then 1 else 0)
  | .float q => .ok (Int.tdiv q.num (q.den : ℤ))
  | .str s =>
    match pyStrToInt s with
    | some n => .ok n
    | none => .error "ValueError"
  | .list _ => .error "TypeError"

/-- Hexadecimal digit. -/
def isHexDigit (c : Char) : Bool :=
  c.isDigit || ('a' ≤ c && c ≤ 'f') || ('A' ≤ c && c ≤ 'F')

/-- Hexadecimal digit run with single-underscore separators (tail). -/
def hexTailOk : List Char → Bool
  | [] => true
  | '_' :: c :: rest => isHexDigit c && hexTailOk rest
  | c :: rest => isHexDigit c && hexTailOk rest

/-- Nonempty hexadecimal digit run with single-underscore separators. -/
def hexDigitsOk : List Char → Bool
  | [] => false
  | c :: rest => isHexDigit c && hexTailOk rest

/-- Python `int(s, 16)` success test: optional surrounding whitespace,
optional sign, optional `0x`/`0X` prefix (an underscore may follow the
prefix), then hex digits with single underscores. -/
def pyIntOk16 (chars : List Char) : Bool :=
  let l := pyStripList chars
  let l := match l with
    | '+' :: r => r
    | '-' :: r => r
    | r => r
  let l := match l with
    | '0' :: 'x' :: r => (match r with | '_' :: r' => r' | _ => r)
    | '0' :: 'X' :: r => (match r with | '_' :: r' => r' | _ => r)
    | r => r
  hexDigitsOk l

/-- Embedding of `ConfigManager.is_valid_color` (lines 260-280): a string
starting with `#`, of length 7, whose tail `color_str[1:]` parses as a
base-16 integer. -/
def is_valid_color (v : PyVal) : Bool :=
  match v with
  | .str s =>
    match s.data with
    | '#' :: rest => (rest.length == 6) && pyIntOk16 rest
    | _ => false
  | _ => false

/-- `valid_fonts` (lines 193-196). -/
def valid_fonts : List String :=
  ["Microsoft YaHei", "SimSun", "SimHei", "KaiTi", "FangSong",
   "Arial", "Times New Roman", "Courier New"]

/-- `valid_keys` for `custom_key` (line 216). -/
def valid_keys : List String :=
  ["ctrl", "alt", "shift", "space", "tab", "enter", "esc"]

/-- `allowed_specials` of `normalize_page_keys`. -/
def npkSpecials : List String := ["space", "enter", "tab"]

/-- `forbidden` of `normalize_page_keys`. -/
def npkForbidden : List String :=
  ["ctrl", "alt", "shift", "win", "meta", "command", "super"]

/-- ASCII lower-casing table for Python `str.lower()` (the call sites only
exercise the ASCII range). -/
def asciiLowerMap : List (Char × Char) :=
  [('A','a'), ('B','b'), ('C','c'), ('D','d'), ('E','e'), ('F','f'),
   ('G','g'), ('H','h'), ('I','i'), ('J','j'), ('K','k'), ('L','l'),
   ('M','m'), ('N','n'), ('O','o'), ('P','p'), ('Q','q'), ('R','r'),
   ('S','s'), ('T','t'), ('U','u'), ('V','v'), ('W','w'), ('X','x'),
   ('Y','y'), ('Z','z')]

/-- Lower-case one character (ASCII model of Python `str.lower()`). -/
def pyLowerChar (c : Char) : Char :=
  ((asciiLowerMap.find? (fun p => p.1 = c)).map (·.2)).getD c

/-- Python `str.lower()`. -/
def pyLower (s : String) : String :=
  ⟨s.data.map pyLowerChar⟩

/-- Python single-character `str.isalpha() or str.isdigit()` (ASCII model). -/
def pyIsAlnumChar (c : Char) : Bool :=
  c.isAlpha || c.isDigit

/-- Single-character alphanumeric test on a token
(`len(kk) == 1 and (kk.isalpha() or kk.isdigit())`). -/
def npkSingleAlnum (kk : String) : Bool :=
  match kk.data with
  | [c] => pyIsAlnumChar c
  | _ => false

/-- Normalization of one token: `k.strip().lower()`. -/
def npkNorm (s : String) : String := pyLower (pyStrip s)

/-- Accumulator loop of `normalize_page_keys` (lines 225-253): skip
non-strings; strip+lower each token; skip empty and forbidden tokens;
append the specials and single alphanumeric characters not already
collected; stop as soon as two entries are collected. -/
def npkLoop : List PyVal → List String → List String
  | [], acc => acc
  | k :: ks, acc =>
    match k with
    | .str s =>
      let kk := npkNorm s
      if kk = "" || npkForbidden.contains kk then
        npkLoop ks acc
      else
        let acc' :=
          if npkSpecials.contains kk then
            if acc.contains kk then acc else acc ++ [kk]
          else if npkSingleAlnum kk then
            if acc.contains kk then acc else acc ++ [kk]
          else acc
        if 2 ≤ acc'.length then acc' else npkLoop ks acc'
    | _ => npkLoop ks acc

/-- Embedding of `normalize_page_keys` (lines 225-253): non-list inputs
yield `[]`; the loop result is truncated to 2 entries. -/
def normalize_page_keys (v : PyVal) : List String :=
  match v with
  | .list ks => (npkLoop ks []).take 2
  | _ => []

/-- Acceptance of one normalized token, per the spec wording: discard empty
tokens and the forbidden set; accept the specials and single alphanumeric
characters. -/
def npkAccept (kk : String) : Bool :=
  !(decide (kk = "") || npkForbidden.contains kk) &&
    (npkSpecials.contains kk || npkSingleAlnum kk)

/-- First-occurrence de-duplication with an explicit seen-list. -/
def dedupFirstAux : List String → List String → List String
  | [], _ => []
  | x :: xs, seen =>
    if seen.contains x then dedupFirstAux xs seen
    else x :: dedupFirstAux xs (x :: seen)

/-- Declarative page-key normalization, following the claim sentence:
normalize each token, filter acceptance, de-duplicate preserving first
occurrence, truncate to 2. -/
def npkSpec (ks : List String) : List String :=
  (dedupFirstAux ((ks.map npkNorm).filter npkAccept) []).take 2

/-- A configuration dictionary, with the keys `validate_config` touches
factored into fields (`none` = key absent) and all other keys in `rest`. -/
structure Config where
  window_width : Option PyVal := none
  window_height : Option PyVal := none
  window_x : Option PyVal := none
  window_y : Option PyVal := none
  window_opacity : Option PyVal := none
  text_opacity : Option PyVal := none
  dot_cursor_opacity : Option PyVal := none
  font_size : Option PyVal := none
  font_family : Option PyVal := none
  font_color : Option PyVal := none
  dot_cursor_color : Option PyVal := none
  stay_on_top : Option PyVal := none
  auto_save_position : Option PyVal := none
  hover_to_show : Option PyVal := none
  key_to_show : Option PyVal := none
  custom_key : Option PyVal := none
  dot_cursor_size : Option PyVal := none
  page_up_keys : Option PyVal := none
  page_down_keys : Option PyVal := none
  rest : List (String × PyVal) := []

/-- `validated[k] = min(hi, validated.get(k, dflt))` (window width/height,
which have no lower bound). -/
def val_clamp_min (hi dflt : PyVal) (v : Option PyVal) : Except String PyVal :=
  pyMin hi (v.getD dflt)

/-- `validated[k] = max(lo, min(hi, validated.get(k, dflt)))` (positions,
opacities, font size). -/
def val_clamp (lo hi dflt : PyVal) (v : Option PyVal) : Except String PyVal := do
  let m ← pyMin hi (v.getD dflt)
  pyMax lo m

/-- `if validated.get('font_family') not in valid_fonts: ... = default`. -/
def val_font_family (v : Option PyVal) : PyVal :=
  match v with
  | some (.str s) => if valid_fonts.contains s then .str s else .str "Microsoft YaHei"
  | _ => .str "Microsoft YaHei"

/-- Colour validation: the key is rewritten to `"#000000"` only when the
fetched value (default `"#000000"`) is invalid; a missing key with a valid
default stays missing. -/
def val_color (v : Option PyVal) : Option PyVal :=
  if is_valid_color (v.getD (.str "#000000")) then v else some (.str "#000000")

/-- `validated[k] = bool(validated.get(k, dflt))`. -/
def val_bool_field (dflt : Bool) (v : Option PyVal) : PyVal :=
  .bool (pyBool (v.getD (.bool dflt)))

/-- `if validated.get('custom_key') not in valid_keys: ... = 'ctrl'`. -/
def val_custom_key (v : Option PyVal) : PyVal :=
  match v with
  | some (.str s) => if valid_keys.contains s then .str s else .str "ctrl"
  | _ => .str "ctrl"

/-- `size = int(validated.get('dot_cursor_size', 2));
validated['dot_cursor_size'] = max(1, min(16, size))`. -/
def val_dot_cursor_size (v : Option PyVal) : Except String PyVal := do
  let sz ← pyToInt (v.getD (.int 2))
  pure (.int (max 1 (min 16 sz)))

/-- `validated[k] = normalize_page_keys(validated.get(k, []))`. -/
def val_page_keys (v : Option PyVal) : PyVal :=
  .list ((normalize_page_keys (v.getD (.list []))).map .str)

/-- Embedding of `ConfigManager.validate_config` (lines 164-258), in source
order.  Python float literals `0.1`, `0.9`, `1.0` are `Rat.mk' 1 10` etc.;
a raised `TypeError`/`ValueError` is an `Except.error`. -/
def validate_config (c : Config) : Except String Config := do
  let window_width ← val_clamp_min (.int 1920) (.int 400) c.window_width
  let window_height ← val_clamp_min (.int 1080) (.int 300) c.window_height
  let window_x ← val_clamp (.int 0) (.int 1920) (.int 100) c.window_x
  let window_y ← val_clamp (.int 0) (.int 1080) (.int 100) c.window_y
  let window_opacity ← val_clamp (.float (Rat.mk' 1 10)) (.float (Rat.mk' 1 1))
    (.float (Rat.mk' 9 10)) c.window_opacity
  let text_opacity ← val_clamp (.float (Rat.mk' 1 10)) (.float (Rat.mk' 1 1))
    (.float (Rat.mk' 1 1)) c.text_opacity
  let dot_cursor_opacity ← val_clamp (.float (Rat.mk' 1 10)) (.float (Rat.mk' 1 1))
    (.float (Rat.mk' 1 1)) c.dot_cursor_opacity
  let font_size ← val_clamp (.int 1) (.int 72) (.int 12) c.font_size
  let font_family := val_font_family c.font_family
  let font_color := val_color c.font_color
  let dot_cursor_color := val_color c.dot_cursor_color
  let stay_on_top := val_bool_field true c.stay_on_top
  let auto_save_position := val_bool_field true c.auto_save_position
  let hover_to_show := val_bool_field false c.hover_to_show
  let key_to_show := val_bool_field false c.key_to_show
  let custom_key := val_custom_key c.custom_key
  let dot_cursor_size ← val_dot_cursor_size c.dot_cursor_size
  let page_up_keys := val_page_keys c.page_up_keys
  let page_down_keys := val_page_keys c.page_down_keys
  pure { window_width := some window_width
         window_height := some window_height
         window_x := some window_x
         window_y := some window_y
         window_opacity := some window_opacity
         text_opacity := some text_opacity
         dot_cursor_opacity := some dot_cursor_opacity
         font_size := some font_size
         font_family := some font_family
         font_color := font_color
         dot_cursor_color := dot_cursor_color
         stay_on_top := some stay_on_top
         auto_save_position := some auto_save_position
         hover_to_show := some hover_to_show
         key_to_show := some key_to_show
         custom_key := some custom_key
         dot_cursor_size := some dot_cursor_size
         page_up_keys := some page_up_keys
         page_down_keys := some page_down_keys
         rest := c.rest }

/-! ## `epub_utils` and `file_utils.read_file_content` -/

/-- Consume `[^>]*` followed by `>`: the remainder after the first `>`,
none when no `>` occurs. -/
def findCloseBracket : List Char → Option (List Char)
  | [] => none
  | '>' :: rest => some rest
  | _ :: rest => findCloseBracket rest

/-- Remainder after the first occurrence of `needle` (leftmost match of the
non-greedy `.*?needle`), none when absent. -/
def dropThroughSub (needle : List Char) : List Char → Option (List Char)
  | [] => if needle.isEmpty then some [] else none
  | c :: rest =>
    if needle.isPrefixOf (c :: rest) then some ((c :: rest).drop needle.length)
    else dropThroughSub needle rest

/-- `re.sub(r'<TAG[^>]*>.*?</TAG>', '', s, flags=DOTALL)`: remove each
leftmost block from an opening `openTag` (followed by `[^>]*>`) through the
first closing tag.  `fuel` bounds the scan (each step consumes at least one
character, so `l.length` suffices). -/
def removeBlocks (openTag closeTag : List Char) : ℕ → List Char → List Char
  | 0, l => l
  | _ + 1, [] => []
  | f + 1, c :: rest =>
    if openTag.isPrefixOf (c :: rest) then
      match findCloseBracket ((c :: rest).drop openTag.length) with
      | some afterGt =>
        match dropThroughSub closeTag afterGt with
        | some rest' => removeBlocks openTag closeTag f rest'
        | none => c :: removeBlocks openTag closeTag f rest
      | none => c :: removeBlocks openTag closeTag f rest
    else c :: removeBlocks openTag closeTag f rest

/-- `re.sub(r'<[^>]+>', ' ', s)`: replace each maximal `<...>` tag (at least
one non-`>` character inside) with one space. -/
def replaceTags : ℕ → List Char → List Char
  | 0, l => l
  | _ + 1, [] => []
  | f + 1, '<' :: rest =>
    match rest with
    | '>' :: _ => '<' :: replaceTags f rest
    | _ =>
      match findCloseBracket rest with
      | some r => ' ' :: replaceTags f r
      | none => '<' :: replaceTags f rest
  | f + 1, c :: rest => c :: replaceTags f rest

/-- Python `str.replace(needle, repl)`: replace all non-overlapping
occurrences left to right (`needle` nonempty at every call site). -/
def replaceSub (needle repl : List Char) : ℕ → List Char → List Char
  | 0, l => l
  | _ + 1, [] => []
  | f + 1, c :: rest =>
    if needle.isPrefixOf (c :: rest) then
      repl ++ replaceSub needle repl f ((c :: rest).drop needle.length)
    else c :: replaceSub needle repl f rest

/-- `re.sub(r'\s+', ' ', s)`: collapse each whitespace run to one space. -/
def collapseWs : ℕ → List Char → List Char
  | 0, l => l
  | _ + 1, [] => []
  | f + 1, c :: rest =>
    if pyIsSpace c then ' ' :: collapseWs f (rest.dropWhile pyIsSpace)
    else c :: collapseWs f rest

/-- Embedding of `epub_utils.extract_text_from_html` (lines 67-106): remove
script and style blocks, replace tags by spaces, decode the six HTML
entities, collapse whitespace, strip.  (The enclosing `try` never fires for
these total operations.) -/
def extract_text_from_html (html : String) : String :=
  let l0 := html.data
  let l1 := removeBlocks "<script".data "</script>".data l0.length l0
  let l2 := removeBlocks "<style".data "</style>".data l1.length l1
  let l3 := replaceTags l2.length l2
  let l4 := replaceSub "&nbsp;".data " ".data l3.length l3
  let l5 := replaceSub "&amp;".data "&".data l4.length l4
  let l6 := replaceSub "&lt;".data "<".data l5.length l5
  let l7 := replaceSub "&gt;".data ">".data l6.length l6
  let l8 := replaceSub "&quot;".data "\"".data l7.length l7
  let l9 := replaceSub "&apos;".data "\x27".data l8.length l8
  let l10 := collapseWs l9.length l9
  ⟨pyStripList l10⟩

/-- One item of an `ebooklib` book: its id, whether it is an
`epub.EpubHtml` content document, whether `get_content().decode('utf-8')`
succeeds, and the decoded markup when it does. -/
structure EpubItem where
  id : String
  isHtml : Bool
  decodeOk : Bool
  html : String

/-- An `ebooklib` book at the library boundary: `get_items()` order and the
`spine` (reading-order) list of `(idref, linear)` pairs. -/
structure EpubBook where
  items : List EpubItem
  spine : List (String × Bool)

/-- `book.get_item_with_id(id)`. -/
def get_item_with_id (book : EpubBook) (i : String) : Option EpubItem :=
  book.items.find? (fun it => it.id = i)

/-- Spine-order attempt of `extract_all_text_from_epub` (lines 122-133):
walk the spine, skip missing and non-HTML items, collect non-empty
stripped texts; a decode failure raises, discarding the partial result
(`none`). -/
def spineExtract (book : EpubBook) : List (String × Bool) → Option (List String)
  | [] => some []
  | (sid, _) :: rest =>
    match get_item_with_id book sid with
    | some item =>
      if item.isHtml then
        if item.decodeOk then
          let text := extract_text_from_html item.html
          (spineExtract book rest).map
            (fun ts => if pyStrip text ≠ "" then text :: ts else ts)
        else none
      else spineExtract book rest
    | none => spineExtract book rest

/-- Fallback loop of `extract_all_text_from_epub` (lines 136-145): all
items in document order, per-item decode failures skipped. -/
def itemsExtractSkip : List EpubItem → List String
  | [] => []
  | item :: rest =>
    if item.isHtml && item.decodeOk then
      let text := extract_text_from_html item.html
      if pyStrip text ≠ "" then text :: itemsExtractSkip rest
      else itemsExtractSkip rest
    else itemsExtractSkip rest

/-- Embedding of `epub_utils.extract_all_text_from_epub` (lines 109-147):
spine order first; on an exception, all items in document order ignoring
per-item failures. -/
def extract_all_text_from_epub (book : EpubBook) : List String :=
  match spineExtract book book.spine with
  | some ts => ts
  | none => itemsExtractSkip book.items

/-- First extraction loop of `read_epub_file` (lines 38-48): ALL items via
`get_items()`; a decode failure raises out of the whole function
(`none`). -/
def itemsExtractStrict : List EpubItem → Option (List String)
  | [] => some []
  | item :: rest =>
    if item.isHtml then
      if item.decodeOk then
        let text := extract_text_from_html item.html
        (itemsExtractStrict rest).map
          (fun ts => if pyStrip text ≠ "" then text :: ts else ts)
      else none
    else itemsExtractStrict rest

/-- `'\n\n'.join(texts)`. -/
def joinSep (sep : String) : List String → String
  | [] => ""
  | [t] => t
  | t :: rest => t ++ sep ++ joinSep sep rest

/-- `file_path.lower().endswith(suffix)`. -/
def lowerEndsWith (path suffix : String) : Bool :=
  suffix.data.isSuffixOf (pyLower path).data

/-- Embedding of `epub_utils.read_epub_file` (lines 14-64): existence and
extension guards, then the ALL-items extraction, then (only when that is
empty) `extract_all_text_from_epub`, joined with blank lines; an empty
result or an exception yields an error string (the exception text after
"读取EPUB文件失败：" is abstracted away). -/
def read_epub_file (path : String) (fileExists : Bool) (book : EpubBook) :
    Except String String :=
  if fileExists = false then .error "文件不存在"
  else if lowerEndsWith path ".epub" = false then .error "文件不是EPUB格式"
  else
    match itemsExtractStrict book.items with
    | none => .error "读取EPUB文件失败"
    | some ts =>
      let texts := if ts.isEmpty then extract_all_text_from_epub book else ts
      let full_text := joinSep "\n\n" texts
      if pyStrip full_text = "" then .error "EPUB文件中没有找到可读的文本内容"
      else .ok full_text

/-- Spine-first extraction following the WORDING of claim C2 and the spec:
iterate the spine first; only when that yields nothing (exception or empty
list) fall back to all HTML items in document order ignoring per-item
failures.  This is the claim's description, to be compared against the
embedded `read_epub_file`. -/
def read_epub_spine_first (book : EpubBook) : Except String String :=
  let texts :=
    match spineExtract book book.spine with
    | some ts => if ts.isEmpty then itemsExtractSkip book.items else ts
    | none => itemsExtractSkip book.items
  let full_text := joinSep "\n\n" texts
  if pyStrip full_text = "" then .error "EPUB文件中没有找到可读的文本内容"
  else .ok full_text

/-- A file at the OS boundary, with the facets `read_file_content`,
`is_epub_file` and `detect_encoding_and_read_file` inspect: the path, the
existence bit, the first-bytes `PK` signature, whether the zip archive
opens, its entries (decoded), the parsed EPUB book, and the result of
TXT encoding-detection reading. -/
structure FSFile where
  path : String
  fileExists : Bool
  startsPK : Bool
  zipOk : Bool
  zipEntries : List (String × String)
  book : EpubBook
  txtRead : Option String

/-- Fallback signature probe of `is_epub_file` (lines 167-181): `PK` magic,
archive opens, and the `mimetype` entry's stripped content equals
`application/epub+zip`; any failure is swallowed. -/
def epubSignatureOk (f : FSFile) : Bool :=
  f.startsPK && f.zipOk &&
    (match getAssoc f.zipEntries "mimetype" with
     | some m => pyStrip m = "application/epub+zip"
     | none => false)

/-- Embedding of `epub_utils.is_epub_file` (lines 150-183). -/
def is_epub_file (f : FSFile) : Bool :=
  if f.fileExists = false then false
  else if lowerEndsWith f.path ".epub" then true
  else epubSignatureOk f

/-- Leftover of the reversed basename after the first `.`: the characters
after the dot (still reversed) and the characters before it. -/
def splitRevDot : List Char → Option (List Char × List Char)
  | [] => none
  | '.' :: rest => some ([], rest)
  | c :: rest => (splitRevDot rest).map (fun p => (c :: p.1, p.2))

/-- `os.path.splitext(path)[1].lower()`: the extension from the last dot of
the basename, empty when the only dots lead the basename. -/
def splitext_ext_lower (path : String) : String :=
  let base := ((path.data.reverse).takeWhile
    (fun c => !(c = '/' || c = '\\'))).reverse
  match splitRevDot base.reverse with
  | some (afterRev, beforeRev) =>
    if beforeRev.any (fun c => !(c = '.')) then
      ⟨('.' :: afterRev.reverse).map pyLowerChar⟩
    else ""
  | none => ""

/-- Embedding of `file_utils.read_file_content` (lines 123-160): dispatch
on the lower-cased extension; `.txt` through encoding detection, `.epub`
through `read_epub_file`, anything else probed with `is_epub_file` first
and otherwise read as TXT. -/
def read_file_content (f : FSFile) : Except String String :=
  if f.fileExists = false then .error "文件不存在"
  else
    let file_ext := splitext_ext_lower f.path
    if file_ext = ".txt" then
      match f.txtRead with
      | some content => .ok content
      | none => .error "无法读取TXT文件，可能是编码问题或文件损坏"
    else if file_ext = ".epub" then
      read_epub_file f.path f.fileExists f.book
    else
      if is_epub_file f then read_epub_file f.path f.fileExists f.book
      else
        match f.txtRead with
        | some content => .ok content
        | none => .error ("不支持的文件格式：" ++ file_ext)

/-- Two HTML spine documents whose `get_items()` order (`a` then `b`) is
the reverse of the spine order (`b` then `a`). -/
def epubOrderBook : EpubBook :=
  { items := [⟨"a", true, true, "<p>Alpha</p>"⟩, ⟨"b", true, true, "<p>Beta</p>"⟩]
    spine := [("b", true), ("a", true)] }

/-- An existing file with an unknown extension that passes the EPUB
signature probe (PK magic, readable archive, correct `mimetype`), and whose
archive holds readable text. -/
def datFile : FSFile :=
  { path := "novel.dat", fileExists := true, startsPK := true, zipOk := true
    zipEntries := [("mimetype", "application/epub+zip")]
    book := epubOrderBook, txtRead := none }

/-! ## A small regular-expression engine (Brzozowski derivatives) for the
table-of-contents patterns -/

/-- Regular expressions over characters, with predicate character
classes. -/
inductive RE
  | zero
  | eps
  | cls (p : Char → Bool)
  | cat (r₁ r₂ : RE)
  | alt (r₁ r₂ : RE)
  | star (r : RE)

/-- Does the language of `r` contain the empty word? -/
def RE.nullable : RE → Bool
  | .zero => false
  | .eps => true
  | .cls _ => false
  | .cat r₁ r₂ => r₁.nullable && r₂.nullable
  | .alt r₁ r₂ => r₁.nullable || r₂.nullable
  | .star _ => true

/-- Brzozowski derivative of `r` by the character `c`. -/
def RE.deriv : RE → Char → RE
  | .zero, _ => .zero
  | .eps, _ => .zero
  | .cls p, c => if p c then .eps else .zero
  | .cat r₁ r₂, c =>
    if r₁.nullable then .alt (.cat (r₁.deriv c) r₂) (r₂.deriv c)
    else .cat (r₁.deriv c) r₂
  | .alt r₁ r₂, c => .alt (r₁.deriv c) (r₂.deriv c)
  | .star r, c => .cat (r.deriv c) (.star r)

/-- Whole-word match. -/
def reFull : RE → List Char → Bool
  | r, [] => r.nullable
  | r, c :: rest => reFull (r.deriv c) rest

/-- Python `re.match`: does `r` match some prefix of the word? -/
def reMatchPre : RE → List Char → Bool
  | r, [] => r.nullable
  | r, c :: rest => r.nullable || reMatchPre (r.deriv c) rest

/-- Python `re.search`: does `r` match somewhere inside the word? -/
def reSearch : RE → List Char → Bool
  | r, [] => r.nullable
  | r, c :: rest => reMatchPre r (c :: rest) || reSearch r rest

/-- `.` (any character except newline). -/
def reAny : RE := .cls (fun c => !(c = '\n'))

/-- `\s` (whitespace). -/
def reWs : RE := .cls pyIsSpace

/-- A literal character. -/
def reChar (c : Char) : RE := .cls (fun x => x = c)

/-- A character class given by its member characters. -/
def reSet (s : String) : RE := .cls (fun x => s.data.contains x)

/-- A negated single-character class `[^c]`. -/
def reNotChar (c : Char) : RE := .cls (fun x => !(x = c))

/-- A literal string. -/
def reStr (s : String) : RE := s.data.foldr (fun c r => RE.cat (reChar c) r) .eps

/-- Concatenation of a pattern list. -/
def reCatList (l : List RE) : RE := l.foldr .cat .eps

/-- Alternation of a pattern list. -/
def reAltList (l : List RE) : RE := l.foldr .alt .zero

/-- `r+`. -/
def rePlus (r : RE) : RE := .cat r (.star r)

/-- `r?`. -/
def reOpt (r : RE) : RE := .alt r .eps

/-- `r{n}`. -/
def reRep (n : ℕ) (r : RE) : RE := reCatList (List.replicate n r)

/-- `r{n,}`. -/
def reAtLeast (n : ℕ) (r : RE) : RE := .cat (reRep n r) (.star r)

/-- `\d` (ASCII model of the Unicode digit class). -/
def reDigit : RE := .cls Char.isDigit

/-- `[1-9]`. -/
def reD19 : RE := .cls (fun c => '1' ≤ c && c ≤ '9')

/-- `[1-9]\d{0,2}` (a number of 1 to 3 digits not starting with 0). -/
def reNum13 : RE := .cat reD19 (reOpt (.cat reDigit (reOpt reDigit)))

/-! ## `table_of_contents.TableOfContents` -/

/-- Chinese numeral characters of the chapter patterns
(`一二三四五六七八九十百千万零壹贰叁肆伍陆柒捌玖拾佰仟萬`). -/
def cnNumeralChars : String := "一二三四五六七八九十百千万零壹贰叁肆伍陆柒捌玖拾佰仟萬"

/-- `[\d一二三...萬]` — an ASCII digit or a Chinese numeral. -/
def reNumCls : RE := .cls (fun c => c.isDigit || cnNumeralChars.data.contains c)

/-- `[一二三...萬]+` building block. -/
def reCnNum : RE := reSet cnNumeralChars

/-- `[章回节篇卷部集]`. -/
def reChapSet : RE := reSet "章回节篇卷部集"

/-- `[：:：\s]` — full-width or ASCII colon, or whitespace. -/
def reColonWs : RE := .cls (fun c => c = '：' || c = ':' || pyIsSpace c)

/-- `[、．.]`. -/
def reDotSep : RE := reSet "、．."

/-- One character of a case-insensitive ASCII letter pair. -/
def reCharCI (a b : Char) : RE := .cls (fun x => x = a || x = b)

/-- `[Cc][Hh][Aa][Pp][Tt][Ee][Rr]`. -/
def reChapterWord : RE :=
  reCatList [reCharCI 'C' 'c', reCharCI 'H' 'h', reCharCI 'A' 'a',
    reCharCI 'P' 'p', reCharCI 'T' 't', reCharCI 'E' 'e', reCharCI 'R' 'r']

/-- The 19 `chapter_patterns` of `TableOfContents.__init__` (lines 20-77),
in order.  Every pattern is `^`-anchored and ends in `.*$` or `.+$`; since
the matched lines contain no newline, `pattern.match(line)` is whole-line
matching of the pattern with the trailing `$` dropped. -/
def chapterPatterns : List RE :=
  [ -- 1: 《第X章》...
    reCatList [.star reWs, reChar '《', reChar '第', rePlus reNumCls, reChapSet,
      .star (reNotChar '》'), reChar '》', .star reAny],
    -- 2: 《Chapter X》...
    reCatList [.star reWs, reChar '《', reChapterWord, .star reWs, rePlus reDigit,
      .star (reNotChar '》'), reChar '》', .star reAny],
    -- 3: 【第X章】...
    reCatList [.star reWs, reChar '【', reChar '第', rePlus reNumCls, reChapSet,
      .star (reNotChar '】'), reChar '】', .star reAny],
    -- 4: 【Chapter X】...
    reCatList [.star reWs, reChar '【', reChapterWord, .star reWs, rePlus reDigit,
      .star (reNotChar '】'), reChar '】', .star reAny],
    -- 5: 第X章[：:：\s]...
    reCatList [.star reWs, reChar '第', rePlus reNumCls, reChapSet, reColonWs,
      .star reAny],
    -- 6: 第(X)章[：:：\s]...
    reCatList [.star reWs, reChar '第', reChar '(', rePlus reNumCls, reChar ')',
      reChapSet, reColonWs, .star reAny],
    -- 7: 第X部分[：:：\s]...
    reCatList [.star reWs, reChar '第', rePlus reNumCls, reStr "部分", reColonWs,
      .star reAny],
    -- 8: Chapter X[：:：\s]...
    reCatList [.star reWs, reChapterWord, .star reWs, rePlus reDigit, reColonWs,
      .star reAny],
    -- 9: 卷X[：:：\s]...
    reCatList [.star reWs, reChar '卷', rePlus reNumCls, reColonWs, .star reAny],
    -- 10: 书X[：:：\s]...
    reCatList [.star reWs, reChar '书', rePlus reNumCls, reColonWs, .star reAny],
    -- 11: 篇X[：:：\s]...
    reCatList [.star reWs, reChar '篇', rePlus reNumCls, reColonWs, .star reAny],
    -- 12: 1、 / 2． / 3. ...
    reCatList [.star reWs, reNum13, reDotSep, .star reColonWs, rePlus reAny],
    -- 13: 一、 ...
    reCatList [.star reWs, rePlus reCnNum, reDotSep, .star reColonWs, rePlus reAny],
    -- 14: (1) ...
    reCatList [.star reWs, reChar '(', reNum13, reChar ')', .star reColonWs,
      rePlus reAny],
    -- 15: (一) ...
    reCatList [.star reWs, reChar '(', rePlus reCnNum, reChar ')', .star reColonWs,
      rePlus reAny],
    -- 16: [1] ...
    reCatList [.star reWs, reChar '[', reNum13, reChar ']', .star reColonWs,
      rePlus reAny],
    -- 17: 序章|楔子|尾声|后记|番外|终章|结局|完结 ...
    reCatList [.star reWs,
      reAltList [reStr "序章", reStr "楔子", reStr "尾声", reStr "后记",
        reStr "番外", reStr "终章", reStr "结局", reStr "完结"],
      reColonWs, .star reAny],
    -- 18: 前言|引言|结语|序言|后语 ...
    reCatList [.star reWs,
      reAltList [reStr "前言", reStr "引言", reStr "结语", reStr "序言",
        reStr "后语"],
      reColonWs, .star reAny],
    -- 19: [上中下前后]篇 ...
    reCatList [.star reWs, reSet "上中下前后", reChar '篇', reColonWs, .star reAny]]

/-- The pattern loop of `parse_contents` (lines 123-141): the line becomes
a chapter iff some pattern matches (the loop breaks after the first
matching pattern, whose index feeds only logging). -/
def matchesAnyPattern (s : String) : Bool :=
  chapterPatterns.any (fun r => reFull r s.data)

/-- Substring containment, Python `sub in s`. -/
def containsSub (needle hay : List Char) : Bool :=
  (dropThroughSub needle hay).isSome

/-- `_determine_chapter_level` (lines 166-205). -/
def determine_chapter_level (title : String) : ℕ :=
  let d := title.data
  -- volume level: any of 卷部篇书 present and one of the two searches hits
  if (["卷", "部", "篇", "书"].any (fun w => containsSub w.data d)) &&
     (reSearch (reCatList [reChar '第', .star reAny, reSet "卷部篇书"]) d ||
      reMatchPre (reSet "卷部篇书") d) then 1
  -- sub-chapter level
  else if ["节", "段", "小节"].any (fun w => containsSub w.data d) then 3
  -- chapter level via the five search patterns
  else if [reCatList [reChar '第', .star reAny, reChar '章'],
           reCatList [reChar '第', .star reAny, reChar '回'],
           reStr "Chapter", reStr "chapter", reStr "CHAPTER"].any
            (fun r => reSearch r d) then 2
  -- numeric chapter searches (both also return 2)
  else if reSearch (reCatList [reChar '第', rePlus reDigit, reSet "章回"]) d ||
          reSearch (reCatList [reChar '第', rePlus reCnNum, reSet "章回"]) d then 2
  else 2

/-- Is there a run of at least `n` consecutive characters satisfying `p`?
This is exactly `re.search` of `[class]{n,}`. -/
def hasRun (p : Char → Bool) (n : ℕ) : List Char → Bool
  | [] => decide (n = 0)
  | c :: rest => decide (((c :: rest).takeWhile p).length ≥ n) || hasRun p n rest

/-- Python `str.isprintable` modelled on the character sets this program
feeds it: false exactly for the C0 controls, DEL, the C1 controls and the
Unicode line/paragraph separators; true otherwise (U+0020 is printable). -/
def pyIsPrintable (c : Char) : Bool :=
  let n := c.toNat
  !(n < 0x20 || n = 0x7f || (0x80 ≤ n && n ≤ 0xa0) || n = 0x2028 || n = 0x2029)

/-- The characters of the seven literal garbled classes of
`_contains_garbled_text` (lines 430-436), given by code point. -/
def garbled1 : List Char := [Char.ofNat 0x675, Char.ofNat 0x3aa]

def garbled2 : List Char :=
  [Char.ofNat 0x477, Char.ofNat 0xfb, Char.ofNat 0x686a, Char.ofNat 0x439,
   Char.ofNat 0x569, Char.ofNat 0x1ad]

def garbled3 : List Char :=
  [Char.ofNat 0x263, Char.ofNat 0x638, Char.ofNat 0x161, Char.ofNat 0x127,
   'c', 'o', 's']

def garbled4 : List Char := [Char.ofNat 0x1fc, Char.ofNat 0x1f4, Char.ofNat 0x13c]

def garbled5 : List Char := [Char.ofNat 0x2eb, Char.ofNat 0x479, Char.ofNat 0x137]

def garbled6 : List Char :=
  [Char.ofNat 0x4f4, Char.ofNat 0x37b, Char.ofNat 0x4e6, Char.ofNat 0x9862,
   Char.ofNat 0xf2, Char.ofNat 0x121, Char.ofNat 0x735, Char.ofNat 0x2b9,
   Char.ofNat 0x2ff, Char.ofNat 0x431, Char.ofNat 0x5ae, Char.ofNat 0x421]

def garbled7 : List Char :=
  [Char.ofNat 0x3fc, Char.ofNat 0xcd7c, Char.ofNat 0x618e1]

/-- The negated class of line 438, parsed under the 4-hex-digit rule of
the re module: a 5-digit escape is a 4-digit escape followed by a literal
extra digit, so e.g. the source range for U+20000 to U+2A6DF contributes
the single character U+2000, the range U+0030 (digit 0) to U+2A6D, and a
literal letter f.  The allowed characters, as the union the class
denotes. -/
def garbledAllowedChar (c : Char) : Bool :=
  let n := c.toNat
  (0x4e00 ≤ n && n ≤ 0x9fff) || (0x3400 ≤ n && n ≤ 0x4dbf) ||
  n = 0x2000 || (0x30 ≤ n && n ≤ 0x2a6d) || c = 'f' ||
  n = 0x2a70 || (0x30 ≤ n && n ≤ 0x2b73) ||
  n = 0x2b74 || (0x30 ≤ n && n ≤ 0x2b81) ||
  n = 0x2b82 || (0x30 ≤ n && n ≤ 0x2cea) ||
  n = 0x2ceb || (0x30 ≤ n && n ≤ 0x2ebe) ||
  n = 0x3000 || (0x30 ≤ n && n ≤ 0x3134) ||
  ('a'.toNat ≤ n && n ≤ 'z'.toNat) || ('A'.toNat ≤ n && n ≤ 'Z'.toNat) ||
  ('0'.toNat ≤ n && n ≤ '9'.toNat) || pyIsSpace c ||
  "()[]【】《》第章回节篇卷部集、．.：:：！？，。；".data.contains c ||
  cnNumeralChars.data.contains c

/-- `_contains_garbled_text` (lines 417-459).  `text.encode('utf-8')`
never raises for well-formed strings (Lean `Char`s are scalar values), so
that branch is identity.  The final ratio `printable/total < 0.7` is
rendered as the equivalent integer test `10 * printable < 7 * total`. -/
def contains_garbled_text (text : String) : Bool :=
  let d := text.data
  if hasRun (fun c => garbled1.contains c) 2 d ||
     hasRun (fun c => garbled2.contains c) 3 d ||
     hasRun (fun c => garbled3.contains c) 3 d ||
     hasRun (fun c => garbled4.contains c) 2 d ||
     hasRun (fun c => garbled5.contains c) 2 d ||
     hasRun (fun c => garbled6.contains c) 4 d ||
     hasRun (fun c => garbled7.contains c) 3 d ||
     hasRun (fun c => !(garbledAllowedChar c)) 5 d then true
  else
    -- char in '一-鿿' is membership in the 3-character string
    let printable := (d.filter (fun c =>
      pyIsPrintable c || c = Char.ofNat 0x4e00 || c = '-' || c = Char.ofNat 0x9fff)).length
    let total := d.length
    decide (0 < total) && decide (10 * printable < 7 * total)

/-- ASCII alphanumeric (`[a-zA-Z0-9]`). -/
def asciiAlnum (c : Char) : Bool :=
  ('a' ≤ c && c ≤ 'z') || ('A' ≤ c && c ≤ 'Z') || ('0' ≤ c && c ≤ '9')

/-- ASCII letter (`[a-zA-Z]`), used case-insensitively so IGNORECASE is
absorbed. -/
def asciiAlpha (c : Char) : Bool :=
  ('a' ≤ c && c ≤ 'z') || ('A' ≤ c && c ≤ 'Z')

/-- The `enumeration_patterns` of `_is_likely_enumeration_content`
(lines 347-363), searched with `re.IGNORECASE` — rendered by making every
letter class case-insensitive.  The `\b` word-boundary assertions of the
email pattern are dropped: dropping them only widens the match set of that
one disjunct of this heuristic, and no theorem below depends on where
this predicate draws its line. -/
def enumerationPatterns : List RE :=
  [ -- URL-ish: [a-zA-Z0-9]+\.[a-zA-Z]{2,}
    reCatList [rePlus (.cls asciiAlnum), reChar '.', reAtLeast 2 (.cls asciiAlpha)],
    -- email: [A-Za-z0-9._%+-]+@[A-Za-z0-9.-]+\.[A-Z|a-z]{2,}  (the class
    -- [A-Z|a-z] literally contains the bar character)
    reCatList [rePlus (.cls (fun c => asciiAlnum c || "._%+-".data.contains c)),
      reChar '@',
      rePlus (.cls (fun c => asciiAlnum c || c = '.' || c = '-')),
      reChar '.',
      reAtLeast 2 (.cls (fun c => asciiAlpha c || c = '|'))],
    -- QQ\d+
    reCatList [reCharCI 'Q' 'q', reCharCI 'Q' 'q', rePlus reDigit],
    -- \d{11}
    reRep 11 reDigit,
    -- \d{3,}[xX]{3,}
    reCatList [reAtLeast 3 reDigit, reAtLeast 3 (reCharCI 'x' 'X')],
    -- \d+\.\d+[Tt]v\d+
    reCatList [rePlus reDigit, reChar '.', rePlus reDigit, reCharCI 'T' 't',
      reCharCI 'v' 'V', rePlus reDigit],
    -- [Cc]os吧|贴吧|回复  (top-level alternation)
    reAltList [reCatList [reCharCI 'C' 'c', reCharCI 'o' 'O', reCharCI 's' 'S',
        reChar '吧'],
      reStr "贴吧", reStr "回复"],
    reAltList [reStr "反诈骗", reStr "联盟", reStr "报告"],
    reAltList [reStr "包裹", reStr "快递", reStr "跟踪"],
    reCatList [reStr "已知", .star reAny, reStr "为实常数"],
    reCatList [reStr "数列", .star reAny, reStr "通向"],
    reCatList [reStr "属于", .star reAny, reStr "使得"]]

/-- `_is_likely_enumeration_content` (lines 336-369). -/
def is_likely_enumeration_content (title : String) : Bool :=
  enumerationPatterns.any (fun r => reSearch r title.data)

/-- The character class of the numeric-prefix strip in
`_is_likely_chapter_content` line 382:
`[\d一二三...萬()\[\]、．.：:：\s]`. -/
def numPrefixClass (c : Char) : Bool :=
  c.isDigit || cnNumeralChars.data.contains c ||
  "()[]、．.：:：".data.contains c || pyIsSpace c

/-- `_is_likely_chapter_content` (lines 371-415).  The substitution
`re.sub(r'^\s*[class]+', '', title)` removes the maximal prefix of class
characters (the class contains `\s`, so `\s*[class]+` matches exactly the
maximal nonempty class prefix, and removes nothing when there is none) —
i.e. `dropWhile numPrefixClass`.  The ratio `chinese/total > 0.7` is the
integer test `10 * chinese > 7 * total`. -/
def is_likely_chapter_content (title : String) : Bool :=
  let content := pyStripList (title.data.dropWhile numPrefixClass)
  if content.length < 2 then false
  else if 30 < content.length then false
  else if ["开始", "结束", "初遇", "相遇", "离别", "回忆", "梦境", "觉醒",
           "战斗", "决战", "胜利", "失败", "成长", "变化", "秘密", "真相",
           "危机", "转机", "希望", "绝望", "重生", "新生", "终结", "开端"].any
            (fun w => containsSub w.data content) then true
  else
    let chinese := (content.filter (fun c =>
      0x4e00 ≤ c.toNat && c.toNat ≤ 0x9fff)).length
    let total := content.length
    if decide (0 < total) && decide (10 * chinese > 7 * total) then true
    else if ["@", ".com", ".cn", "http", "www", "QQ", "qq"].any
              (fun w => containsSub w.data content) then false
    else true

/-- The `chapter_indicators` list of `_is_valid_chapter_title`
(lines 265-271). -/
def chapterIndicators : List String :=
  ["第", "章", "回", "节", "篇", "卷", "部", "集",
   "Chapter", "chapter", "CHAPTER",
   "序章", "楔子", "尾声", "后记", "番外", "终章", "结局", "完结",
   "前言", "引言", "结语", "序言", "后语",
   "上篇", "中篇", "下篇", "前篇", "后篇"]

/-- `_is_valid_chapter_title` (lines 242-334).  The punctuation count
`sum(1 for char in title if char in '，。！？；：')` is a filtered
length. -/
def is_valid_chapter_title (title0 : String) : Bool :=
  let title := pyStrip title0
  let d := title.data
  if 50 < d.length then false
  else if contains_garbled_text title then false
  else if (match d with | '《' :: _ => true | _ => false) && d.contains '》' then
    true
  else if (match d with | '【' :: _ => true | _ => false) && d.contains '】' then
    true
  else
    let hasIndicator := chapterIndicators.any (fun w => containsSub w.data d)
    if hasIndicator then
      if reSearch (reCatList [reChar '第', rePlus reNumCls, reChapSet]) d then true
      else if ["序章", "楔子", "尾声", "后记", "番外", "终章", "结局", "完结",
               "前言", "引言", "结语", "序言", "后语"].any
                (fun w => containsSub w.data d) then true
      else if ["上篇", "中篇", "下篇", "前篇", "后篇"].any
                (fun w => containsSub w.data d) then true
      else
        -- falls through to the sentence check (lines 330-334)
        decide ((d.filter (fun c => "，。！？；：".data.contains c)).length ≤ 2)
    else
      if is_likely_enumeration_content title then false
      else if reMatchPre (reCatList [.star reWs, reNum13, reDotSep]) d then
        is_likely_chapter_content title
      else if reMatchPre (reCatList [.star reWs, reChar '(', reNum13, reChar ')']) d then
        is_likely_chapter_content title
      else if reMatchPre (reCatList [.star reWs, reChar '[', reNum13, reChar ']']) d then
        is_likely_chapter_content title
      else if reMatchPre (reCatList [.star reWs, rePlus reCnNum, reDotSep]) d then
        is_likely_chapter_content title
      else false

/-- `_is_similar_title` (lines 461-476): empty titles are never similar,
otherwise the first 10 characters are compared. -/
def is_similar_title (title1 title2 : String) : Bool :=
  if title1 = "" || title2 = "" then false
  else decide (title1.data.take 10 = title2.data.take 10)

/-- A chapter dict produced by `parse_contents`. -/
structure Chapter where
  title : String
  line_number : ℕ
  char_position : ℕ
  level : ℕ
deriving Repr, DecidableEq

/-- `text.split('\n')` at the character-list level. -/
def splitNL : List Char → List (List Char)
  | [] => [[]]
  | '\n' :: rest => [] :: splitNL rest
  | c :: rest =>
    match splitNL rest with
    | h :: t => (c :: h) :: t
    | [] => [[c]]

/-- Python `text.split('\n')`. -/
def pySplitNL (s : String) : List String :=
  (splitNL s.data).map fun l => ⟨l⟩

/-- The scanning loop of `parse_contents` (lines 109-148): `lineNum` is the
1-based line counter, `charPos` the running character position; a chapter
records the position BEFORE the line is consumed; the loop breaks once
the chapter list has reached `maxC` entries (checked at the end of a
non-skipped iteration). -/
def scanLines (minLen maxC : ℕ) : List String → ℕ → ℕ → List Chapter → List Chapter
  | [], _, _, acc => acc
  | line :: rest, lineNum, charPos, acc =>
    let ls := pyStrip line
    if ls.data.length = 0 || ls.data.length < minLen then
      scanLines minLen maxC rest (lineNum + 1) (charPos + line.data.length + 1) acc
    else if 100 < ls.data.length then
      scanLines minLen maxC rest (lineNum + 1) (charPos + line.data.length + 1) acc
    else
      let acc' := if matchesAnyPattern ls then
          acc ++ [⟨ls, lineNum, charPos, determine_chapter_level ls⟩]
        else acc
      if maxC ≤ acc'.length then acc'
      else scanLines minLen maxC rest (lineNum + 1) (charPos + line.data.length + 1) acc'

/-- The filter loop of `_filter_and_sort_chapters` (lines 224-240):
invalid titles are dropped; a chapter equal or similar to the last
RETAINED title is dropped (`last_title` is only updated on append). -/
def filterLoop : List Chapter → String → List Chapter
  | [], _ => []
  | ch :: rest, lastTitle =>
    if is_valid_chapter_title ch.title then
      if ch.title ≠ lastTitle && !(is_similar_title ch.title lastTitle) then
        ch :: filterLoop rest ch.title
      else filterLoop rest lastTitle
    else filterLoop rest lastTitle

/-- The sort key `lambda x: x['line_number']` as a relation. -/
def chLe (a b : Chapter) : Prop := a.line_number ≤ b.line_number

instance : DecidableRel chLe := fun a b => Nat.decLe _ _

instance : IsTotal Chapter chLe := ⟨fun a b => Nat.le_total _ _⟩

instance : IsTrans Chapter chLe := ⟨fun _ _ _ => Nat.le_trans⟩

/-- `_filter_and_sort_chapters` (lines 207-240): stable sort by line
number, then the dedup/validity filter. -/
def filter_and_sort_chapters (chapters : List Chapter) : List Chapter :=
  if chapters.isEmpty then []
  else filterLoop (List.insertionSort chLe chapters) ""

/-- `parse_contents` (lines 82-164) at its default arguments
`min_chapter_length = 3`, `max_chapters = 1000` (the only way the program
calls it). -/
def parse_contents (text : String) : List Chapter :=
  filter_and_sort_chapters (scanLines 3 1000 (pySplitNL text) 1 0 [])

/-! ## `bookmark_manager.BookmarkManager` -/

/-- One bookmark record (schema in `bookmark_manager.py` lines 28-47). -/
structure Bookmark where
  id : String
  name : String
  line_number : ℤ
  char_position : ℤ
  content_preview : String
  created_time : String
  note : String
deriving Repr, DecidableEq

/-- One entry of `bookmark_data["books"]`. -/
structure BookBookmarks where
  file_path : String
  title : String
  bookmarks : List Bookmark
deriving Repr, DecidableEq

/-- The persisted `bookmark_data` document. -/
structure BookmarkData where
  books : List (String × BookBookmarks)
deriving Repr, DecidableEq

/-- `BookmarkManager.get_book_id`: `os.path.abspath(file_path)`, modelled as
the path itself (paths are taken already absolute; the claims depend only on
the keying being a function of the path). -/
def bm_book_id (file_path : String) : String := file_path

/-- Comparison key of `bookmarks.sort(key=lambda x: x['line_number'])`. -/
def bmLe (a b : Bookmark) : Prop := a.line_number ≤ b.line_number

instance : DecidableRel bmLe := fun a b =>
  inferInstanceAs (Decidable (a.line_number ≤ b.line_number))

instance : IsTotal Bookmark bmLe := ⟨fun a b => le_total a.line_number b.line_number⟩

instance : IsTrans Bookmark bmLe := ⟨fun _ _ _ h h' => le_trans h h'⟩

/-- Embedding of `BookmarkManager.add_bookmark` (lines 98-152): ensure the
book record exists, append the new bookmark (preview truncated to 100
characters, the generated id / auto name / timestamp are the explicit
arguments `bookmark_id`, `auto_name`, `now`), and stably sort by
`line_number` (Python's stable `list.sort` is rendered by the stable
`List.insertionSort`; stable sorting by a key is a unique function of the
input).  Returns the new state and the bookmark id. -/
def add_bookmark (d : BookmarkData) (file_path title : String)
    (line_number char_position : ℤ) (content_preview : String)
    (bookmark_id auto_name now : String) (name : Option String) (note : String) :
    BookmarkData × String :=
  let book_id := bm_book_id file_path
  let rec0 := (getAssoc d.books book_id).getD
    { file_path := file_path, title := title, bookmarks := [] }
  let nm := match name with
    | some n => if n = "" then auto_name else n
    | none => auto_name
  let bm : Bookmark :=
    { id := bookmark_id, name := nm, line_number := line_number
      char_position := char_position, content_preview := content_preview.take 100
      created_time := now, note := note }
  let sorted := List.insertionSort bmLe (rec0.bookmarks ++ [bm])
  (⟨setAssoc d.books book_id { rec0 with bookmarks := sorted }⟩, bookmark_id)

/-- Embedding of `BookmarkManager.get_bookmarks` (lines 154-168). -/
def get_bookmarks (d : BookmarkData) (file_path : String) : List Bookmark :=
  ((getAssoc d.books (bm_book_id file_path)).map (·.bookmarks)).getD []

/-- Deletion of the first bookmark whose `id` matches, as in the indexed
scan of `delete_bookmark`; `none` when no bookmark matches. -/
def removeFirstBM : List Bookmark → String → Option (List Bookmark)
  | [], _ => none
  | b :: l, bid => if b.id = bid then some l else (removeFirstBM l bid).map (b :: ·)

/-- Embedding of `BookmarkManager.delete_bookmark` (lines 170-192). -/
def delete_bookmark (d : BookmarkData) (file_path bookmark_id : String) :
    BookmarkData × Bool :=
  match getAssoc d.books (bm_book_id file_path) with
  | none => (d, false)
  | some r =>
    match removeFirstBM r.bookmarks bookmark_id with
    | none => (d, false)
    | some l =>
      (⟨setAssoc d.books (bm_book_id file_path) { r with bookmarks := l }⟩, true)

/-- In-place update of the first bookmark whose `id` matches: `name`/`note`
are overwritten only when given (Python `if name is not None: ...`). -/
def updateFirstBM : List Bookmark → String → Option String → Option String →
    Option (List Bookmark)
  | [], _, _, _ => none
  | b :: l, bid, nm, nt =>
    if b.id = bid then
      some ({ b with name := nm.getD b.name, note := nt.getD b.note } :: l)
    else
      (updateFirstBM l bid nm nt).map (b :: ·)

/-- Embedding of `BookmarkManager.update_bookmark` (lines 194-223). -/
def update_bookmark (d : BookmarkData) (file_path bookmark_id : String)
    (name note : Option String) : BookmarkData × Bool :=
  match getAssoc d.books (bm_book_id file_path) with
  | none => (d, false)
  | some r =>
    match updateFirstBM r.bookmarks bookmark_id name note with
    | none => (d, false)
    | some l =>
      (⟨setAssoc d.books (bm_book_id file_path) { r with bookmarks := l }⟩, true)

/-- Embedding of `BookmarkManager.clear_bookmarks` (lines 246-262). -/
def clear_bookmarks (d : BookmarkData) (file_path : String) :
    BookmarkData × Bool :=
  match getAssoc d.books (bm_book_id file_path) with
  | none => (d, false)
  | some r =>
    (⟨setAssoc d.books (bm_book_id file_path) { r with bookmarks := [] }⟩, true)

/-- One `BookmarkManager` mutation, with all externally generated values
(ids, timestamps) as explicit fields. -/
inductive BmOp
  | add (file_path title : String) (line_number char_position : ℤ)
      (content_preview bookmark_id auto_name now : String)
      (name : Option String) (note : String)
  | del (file_path bookmark_id : String)
  | upd (file_path bookmark_id : String) (name note : Option String)
  | clear (file_path : String)

/-- Apply one operation to the manager state. -/
def applyBmOp (d : BookmarkData) : BmOp → BookmarkData
  | .add fp t ln cp cv bid an now nm nt =>
    (add_bookmark d fp t ln cp cv bid an now nm nt).1
  | .del fp bid => (delete_bookmark d fp bid).1
  | .upd fp bid nm nt => (update_bookmark d fp bid nm nt).1
  | .clear fp => (clear_bookmarks d fp).1

/-- Apply a sequence of operations to the initial (empty, as produced by
`load_bookmarks` with no file) state. -/
def applyBmOps (ops : List BmOp) : BookmarkData :=
  ops.foldl applyBmOp ⟨[]⟩

/-- Every per-book bookmark list in the state is sorted by `line_number`. -/
def BmDataSorted (d : BookmarkData) : Prop :=
  ∀ p ∈ d.books, List.Sorted bmLe p.2.bookmarks

/-- Invariant facts about the tokens the loop collects: each collected
token is a fixed point of normalization and is accepted. -/
def GoodTok (x : String) : Prop := npkNorm x = x ∧ npkAccept x = true

/-! ## Theorems -/

theorem dropWhileEnd_nil (p : Char → Bool) : dropWhileEnd p [] = [] := rfl

theorem dropWhileEnd_cons (p : Char → Bool) (c : Char) (l : List Char) :
    dropWhileEnd p (c :: l) =
      if (dropWhileEnd p l).isEmpty && p c then [] else c :: dropWhileEnd p l := rfl

theorem length_dropWhile_le (p : Char → Bool) (l : List Char) :
    (l.dropWhile p).length ≤ l.length := by
  induction l with
  | nil => simp
  | cons a l ih =>
    by_cases h : p a
    · rw [List.dropWhile_cons_of_pos h]
      exact Nat.le_succ_of_le ih
    · rw [List.dropWhile_cons_of_neg h]

theorem length_dropWhileEnd_le (p : Char → Bool) (l : List Char) :
    (dropWhileEnd p l).length ≤ l.length := by
  induction l with
  | nil => simp [dropWhileEnd_nil]
  | cons a l ih =>
    rw [dropWhileEnd_cons]
    split_ifs
    · simp
    · simpa using ih

theorem pyStripList_length_le (l : List Char) : (pyStripList l).length ≤ l.length :=
  le_trans (length_dropWhileEnd_le _ _) (length_dropWhile_le _ _)

theorem pyStrip_length_le (s : String) : (pyStrip s).length ≤ s.length :=
  pyStripList_length_le s.data

theorem validate_content_encoding_short (s : String) (h : s.length < 10) :
    validate_content_encoding s = false := by
  unfold validate_content_encoding
  have hstrip : (pyStrip s).length < 10 := lt_of_le_of_lt (pyStrip_length_le s) h
  simp [hstrip]

theorem page_down_multi_iterate (N P : ℕ) (hP : 1 ≤ P) (k : ℕ) :
    (page_down_multi N P)^[k] 0 = min (k * P) (N - P) := by
  induction k with
  | zero => simp
  | succ k ih =>
    rw [Function.iterate_succ_apply', ih]
    unfold page_down_multi
    rcases Nat.lt_or_ge (k * P) (N - P) with hlt | hge
    · have hmin : min (k * P) (N - P) = k * P := Nat.min_eq_left (Nat.le_of_lt hlt)
      rw [hmin]
      by_cases hc : k * P < N - P
      · simp only [if_pos hc]
        have : (k + 1) * P = k * P + P := by ring
        rw [this]
      · omega
    · have hmin : min (k * P) (N - P) = N - P := Nat.min_eq_right hge
      have hge' : N - P ≤ (k + 1) * P := by nlinarith
      rw [hmin]
      simp only [if_neg (lt_irrefl (N - P))]
      rw [Nat.min_eq_right hge']

theorem getAssoc_setAssoc_self {α : Type} (m : List (String × α)) (k : String) (v : α) :
    getAssoc (setAssoc m k v) k = some v := by
  induction m with
  | nil => simp [setAssoc, getAssoc, List.find?]
  | cons p m ih =>
    obtain ⟨a, b⟩ := p
    by_cases h : a = k
    · simp [setAssoc, h, getAssoc, List.find?]
    · simpa [setAssoc, h, getAssoc, List.find?] using ih

theorem mem_setAssoc {α : Type} (m : List (String × α)) (k : String) (v : α) :
    ∀ p ∈ setAssoc m k v, p ∈ m ∨ p = (k, v) := by
  induction m with
  | nil => simp [setAssoc]
  | cons q m ih =>
    obtain ⟨a, b⟩ := q
    intro p hp
    by_cases h : a = k
    · simp only [setAssoc, if_pos h, List.mem_cons] at hp
      rcases hp with hp | hp
      · right; exact hp
      · left; exact List.mem_cons_of_mem _ hp
    · simp only [setAssoc, if_neg h, List.mem_cons] at hp
      rcases hp with hp | hp
      · left
        rw [hp]
        exact List.mem_cons_self _ _
      · rcases ih p hp with h' | h'
        · left; exact List.mem_cons_of_mem _ h'
        · right; exact h'

/-- C7: after `update_reading_position(file_path, title, line, offset,
total_lines)` the stored `reading_progress` equals `line / total_lines`
clamped to `[0, 1]` when `total_lines > 0` and `0.0` otherwise (no division
error), and at `line = 50`, `total_lines = 200` it is exactly `0.25`. -/
theorem c7_reading_progress_clamped (h : HistoryData) (now fp title : String)
    (li co tl : ℤ) :
    (∃ r, get_reading_position (update_reading_position h now fp title li co tl) fp
        = some r ∧
      (0 < tl → r.reading_progress = min 1 (max 0 ((li : ℚ) / (tl : ℚ)))) ∧
      (tl ≤ 0 → r.reading_progress = 0) ∧
      0 ≤ r.reading_progress ∧ r.reading_progress ≤ 1) ∧
    (∃ r, get_reading_position (update_reading_position h now fp title 50 co 200) fp
        = some r ∧ r.reading_progress = 1/4) := by
  refine ⟨⟨_, getAssoc_setAssoc_self _ _ _, ?_, ?_, ?_, ?_⟩,
          ⟨_, getAssoc_setAssoc_self _ _ _, ?_⟩⟩
  · intro htl
    simp only [if_pos htl]
  · intro htl
    simp only [if_neg (by omega : ¬ (0:ℤ) < tl)]
  · dsimp only
    split_ifs
    · exact le_min (by norm_num) (le_max_left 0 _)
    · exact le_refl 0
  · dsimp only
    split_ifs
    · exact min_le_left 1 _
    · norm_num
  · dsimp only
    rw [if_pos (by norm_num : (0:ℤ) < 200)]
    have h1 : ((50 : ℤ) : ℚ) / ((200 : ℤ) : ℚ) = 1/4 := by norm_num
    rw [h1, max_eq_right (by norm_num : (0:ℚ) ≤ 1/4),
      min_eq_right (by norm_num : (1:ℚ)/4 ≤ 1)]

theorem removeFirstBM_sublist {l l' : List Bookmark} {bid : String}
    (h : removeFirstBM l bid = some l') : List.Sublist l' l := by
  induction l generalizing l' with
  | nil => simp [removeFirstBM] at h
  | cons b l ih =>
    by_cases hb : b.id = bid
    · simp only [removeFirstBM, if_pos hb, Option.some.injEq] at h
      subst h
      exact (List.Sublist.refl l).cons b
    · simp only [removeFirstBM, if_neg hb, Option.map_eq_some'] at h
      obtain ⟨l'', h1, h2⟩ := h
      subst h2
      exact (ih h1).cons₂ b

theorem updateFirstBM_map_ln {l l' : List Bookmark} {bid : String}
    {nm nt : Option String} (h : updateFirstBM l bid nm nt = some l') :
    l'.map (·.line_number) = l.map (·.line_number) := by
  induction l generalizing l' with
  | nil => simp [updateFirstBM] at h
  | cons b l ih =>
    by_cases hb : b.id = bid
    · simp only [updateFirstBM, if_pos hb, Option.some.injEq] at h
      subst h
      simp
    · simp only [updateFirstBM, if_neg hb, Option.map_eq_some'] at h
      obtain ⟨l'', h1, h2⟩ := h
      subst h2
      simp [ih h1]

theorem sorted_of_map_ln_eq {l l' : List Bookmark}
    (hmap : l'.map (·.line_number) = l.map (·.line_number))
    (h : List.Sorted bmLe l) : List.Sorted bmLe l' := by
  have h1 : List.Pairwise (fun a b : ℤ => a ≤ b) (l.map (·.line_number)) := by
    rw [List.pairwise_map]
    exact h
  rw [← hmap] at h1
  rw [List.pairwise_map] at h1
  exact h1

theorem sorted_of_mem_data {d : BookmarkData} (hd : BmDataSorted d)
    {k : String} {r : BookBookmarks} (h : getAssoc d.books k = some r) :
    List.Sorted bmLe r.bookmarks := by
  unfold getAssoc at h
  rw [Option.map_eq_some'] at h
  obtain ⟨p, hp, hp2⟩ := h
  have := hd p (List.mem_of_find?_eq_some hp)
  rwa [hp2] at this

theorem applyBmOp_preserves_sorted (d : BookmarkData) (op : BmOp)
    (hd : BmDataSorted d) : BmDataSorted (applyBmOp d op) := by
  cases op with
  | add fp t ln cp cv bid an now nm nt =>
    show BmDataSorted (add_bookmark d fp t ln cp cv bid an now nm nt).1
    intro p hp
    rcases mem_setAssoc _ _ _ p hp with h | h
    · exact hd p h
    · subst h
      exact List.sorted_insertionSort bmLe _
  | del fp bid =>
    show BmDataSorted (delete_bookmark d fp bid).1
    unfold delete_bookmark
    split
    · exact hd
    · rename_i r hr
      split
      · exact hd
      · rename_i l hrem
        intro p hp
        rcases mem_setAssoc _ _ _ p hp with h | h
        · exact hd p h
        · subst h
          exact (sorted_of_mem_data hd hr).sublist (removeFirstBM_sublist hrem)
  | upd fp bid nm nt =>
    show BmDataSorted (update_bookmark d fp bid nm nt).1
    unfold update_bookmark
    split
    · exact hd
    · rename_i r hr
      split
      · exact hd
      · rename_i l hupd
        intro p hp
        rcases mem_setAssoc _ _ _ p hp with h | h
        · exact hd p h
        · subst h
          exact sorted_of_map_ln_eq (updateFirstBM_map_ln hupd)
            (sorted_of_mem_data hd hr)
  | clear fp =>
    show BmDataSorted (clear_bookmarks d fp).1
    unfold clear_bookmarks
    split
    · exact hd
    · rename_i r hr
      intro p hp
      rcases mem_setAssoc _ _ _ p hp with h | h
      · exact hd p h
      · subst h
        exact List.sorted_nil

theorem applyBmOps_sorted (ops : List BmOp) : BmDataSorted (applyBmOps ops) := by
  have general : ∀ (l : List BmOp) (d : BookmarkData), BmDataSorted d →
      BmDataSorted (l.foldl applyBmOp d) := by
    intro l
    induction l with
    | nil => intro d hd; exact hd
    | cons op l ih =>
      intro d hd
      exact ih _ (applyBmOp_preserves_sorted d op hd)
  exact general ops ⟨[]⟩ (by intro p hp; simp at hp)

/-- C5: after any sequence of `BookmarkManager` operations starting from the
empty store, `get_bookmarks` returns a list sorted by `line_number`
ascending; adding bookmarks at lines 50, 10, 30 in that call order yields
line numbers [10, 30, 50]. -/
theorem c5_bookmarks_sorted :
    (∀ (ops : List BmOp) (fp : String),
      List.Sorted bmLe (get_bookmarks (applyBmOps ops) fp)) ∧
    (get_bookmarks (applyBmOps
        [.add "b.txt" "T" 50 0 "p1" "id1" "n1" "t1" none "",
         .add "b.txt" "T" 10 0 "p2" "id2" "n2" "t2" none "",
         .add "b.txt" "T" 30 0 "p3" "id3" "n3" "t3" none ""]) "b.txt").map
      (·.line_number) = [10, 30, 50] := by
  constructor
  · intro ops fp
    have hd := applyBmOps_sorted ops
    unfold get_bookmarks
    cases hr : getAssoc (applyBmOps ops).books (bm_book_id fp) with
    | none => exact List.sorted_nil
    | some r => exact sorted_of_mem_data hd hr
  · decide

/-- C1 counterexample: for the 5-character ASCII string "abcde" the claim
asserts `_validate_content_encoding("第一章：abcde") = True`, but the
prefixed string has only 9 characters, below the 10-character minimum of
the initial length guard, so validation fails. -/
theorem c1_counterexample :
    ¬ (validate_content_encoding "abcde" = false ∧
       validate_content_encoding ("第一章：" ++ "abcde") = true) := by
  decide

/-- C1 (amended): for every string `s` of exactly 5 ASCII characters with no
CJK ideographs, no chapter-indicator characters and no CJK punctuation,
`_validate_content_encoding(s)` returns false, and `_validate_content_encoding`
applied to the same string prefixed with "第一章：" ALSO returns false: the
prefixed string has 9 characters, still below the 10-character minimum
enforced by `len(content.strip()) < 10`. -/
theorem c1_short_ascii_fails_validation (s : String)
    (h5 : s.length = 5)
    (hascii : ∀ c ∈ s.data, c.toNat < 128)
    (hnocjk : ∀ c ∈ s.data, isCJKIdeograph c = false)
    (hnochap : ∀ c ∈ s.data, c ∉ chapterIndicatorChars)
    (hnopunct : ∀ c ∈ s.data, c ∉ chinesePunctuationChars) :
    validate_content_encoding s = false ∧
    validate_content_encoding ("第一章：" ++ s) = false := by
  constructor
  · exact validate_content_encoding_short s (by omega)
  · apply validate_content_encoding_short
    have hlen : ("第一章：" ++ s).length = "第一章：".length + s.length :=
      String.length_append _ _
    have h4 : "第一章：".length = 4 := rfl
    omega

/-- Closed witness for `c1_short_ascii_fails_validation` at `s = "abcde"`. -/
theorem c1_witness :
    validate_content_encoding "abcde" = false ∧
    validate_content_encoding ("第一章：" ++ "abcde") = false :=
  c1_short_ascii_fails_validation "abcde" (by decide) (by decide) (by decide)
    (by decide) (by decide)

/-- C4: in multi-line mode, `page_down` increases `current_line_index` by
exactly `lines_per_page`, clamped above by `max(0, total_lines -
lines_per_page)` (for any reachable index, i.e. any index at most that
maximum); `page_up` decreases it by exactly `lines_per_page`, clamped below
by 0 (truncated ℕ subtraction); and for a document of `N` lines and page
size `P ≥ 1`, `N` or more repeated `page_down` calls from index 0 land on
`max(0, N - P)` and stay there. -/
theorem c4_page_moves_clamped (N P : ℕ) (hP : 1 ≤ P) :
    (∀ idx, idx ≤ N - P → page_down_multi N P idx = min (idx + P) (N - P)) ∧
    (∀ idx, page_up_multi P idx = idx - P) ∧
    (∀ j, (page_down_multi N P)^[N + j] 0 = N - P) := by
  refine ⟨?_, ?_, ?_⟩
  · intro idx hidx
    unfold page_down_multi
    by_cases hc : idx < N - P
    · simp [hc]
    · have hidx' : idx = N - P := by omega
      subst hidx'
      rw [if_neg hc, Nat.min_eq_right (by omega)]
  · intro idx
    unfold page_up_multi
    by_cases hc : 0 < idx
    · rw [if_pos hc]
    · rw [if_neg hc]
      omega
  · intro j
    rw [page_down_multi_iterate N P hP (N + j)]
    have h1 : N * 1 ≤ (N + j) * P := Nat.mul_le_mul (by omega) hP
    exact Nat.min_eq_right (by omega)

/-- Closed witness for `c4_page_moves_clamped` at `N = 7`, `P = 3`,
`idx = 2`. -/
theorem c4_witness : page_down_multi 7 3 2 = min (2 + 3) (7 - 3) :=
  (c4_page_moves_clamped 7 3 (by decide)).1 2 (by decide)

theorem npkLoop_spec (ks : List String) : ∀ acc : List String, acc.length ≤ 1 →
    (npkLoop (ks.map .str) acc).take 2 =
    (acc ++ dedupFirstAux ((ks.map npkNorm).filter npkAccept) acc).take 2 := by
  induction ks with
  | nil =>
    intro acc _
    simp [npkLoop, dedupFirstAux]
  | cons k ks ih =>
    intro acc hacc
    simp only [List.map_cons, npkLoop, List.filter_cons]
    by_cases h1 : (decide (npkNorm k = "") || npkForbidden.contains (npkNorm k)) = true
    · have hrej : npkAccept (npkNorm k) = false := by
        simp only [npkAccept, h1, Bool.not_true, Bool.false_and]
      rw [if_pos h1, hrej]
      simp only [Bool.false_eq_true, if_false]
      exact ih acc hacc
    · rw [if_neg h1]
      have h1' : (decide (npkNorm k = "") || npkForbidden.contains (npkNorm k)) = false := by
        revert h1
        cases (decide (npkNorm k = "") || npkForbidden.contains (npkNorm k)) <;> simp
      by_cases hsel : (npkSpecials.contains (npkNorm k) || npkSingleAlnum (npkNorm k)) = true
      · have hacc' : npkAccept (npkNorm k) = true := by
          simp only [npkAccept, h1', hsel, Bool.not_false, Bool.true_and]
        rw [hacc']
        simp only [if_true]
        by_cases hmem : acc.contains (npkNorm k) = true
        · -- duplicate: nothing appended, seen already contains the token
          have hbranch :
              (if npkSpecials.contains (npkNorm k) = true then
                if acc.contains (npkNorm k) = true then acc else acc ++ [npkNorm k]
              else if npkSingleAlnum (npkNorm k) = true then
                if acc.contains (npkNorm k) = true then acc else acc ++ [npkNorm k]
              else acc) = acc := by
            by_cases hs2 : npkSpecials.contains (npkNorm k) = true
            · rw [if_pos hs2, if_pos hmem]
            · rcases Bool.or_eq_true_iff.mp hsel with hs | hs
              · exact absurd hs hs2
              · rw [if_neg hs2, if_pos hs, if_pos hmem]
          rw [hbranch]
          simp only [dedupFirstAux]
          rw [if_pos hmem]
          have h2 : ¬ (2 ≤ acc.length) := by omega
          rw [if_neg h2]
          exact ih acc hacc
        · -- new token appended
          have hbranch :
              (if npkSpecials.contains (npkNorm k) = true then
                if acc.contains (npkNorm k) = true then acc else acc ++ [npkNorm k]
              else if npkSingleAlnum (npkNorm k) = true then
                if acc.contains (npkNorm k) = true then acc else acc ++ [npkNorm k]
              else acc) = acc ++ [npkNorm k] := by
            by_cases hs2 : npkSpecials.contains (npkNorm k) = true
            · rw [if_pos hs2, if_neg hmem]
            · rcases Bool.or_eq_true_iff.mp hsel with hs | hs
              · exact absurd hs hs2
              · rw [if_neg hs2, if_pos hs, if_neg hmem]
          rw [hbranch]
          simp only [dedupFirstAux]
          rw [if_neg hmem]
          rcases Nat.lt_or_ge acc.length 1 with h0 | h01
          · -- acc = [], recurse with [npkNorm k]
            have hacc0 : acc = [] := List.length_eq_zero.mp (by omega)
            subst hacc0
            have h2 : ¬ (2 ≤ ([] ++ [npkNorm k] : List String).length) := by simp
            rw [if_neg h2]
            simpa using ih [npkNorm k] (by simp)
          · -- acc = [a], the append reaches length 2 and the loop stops
            obtain ⟨a, hacca⟩ : ∃ a, acc = [a] := by
              cases acc with
              | nil => simp at h01
              | cons a t =>
                cases t with
                | nil => exact ⟨a, rfl⟩
                | cons b t => simp at hacc
            subst hacca
            have h2 : 2 ≤ ([a] ++ [npkNorm k] : List String).length := by simp
            rw [if_pos h2]
            simp [List.take]
      · have hsel' : npkSpecials.contains (npkNorm k) = false ∧
            npkSingleAlnum (npkNorm k) = false := by
          revert hsel
          cases npkSpecials.contains (npkNorm k) <;>
            cases npkSingleAlnum (npkNorm k) <;> simp
        have hrej : npkAccept (npkNorm k) = false := by
          simp only [npkAccept, hsel'.1, hsel'.2, Bool.or_self, Bool.and_false]
        rw [hrej]
        simp only [Bool.false_eq_true, if_false]
        rw [hsel'.1, hsel'.2]
        simp only [Bool.false_eq_true, if_false]
        have h2 : ¬ (2 ≤ acc.length) := by omega
        rw [if_neg h2]
        exact ih acc hacc

/-- C6: page-key normalization agrees, for every list of string tokens, with
the declarative rule (lower-case and trim; drop empty and forbidden tokens;
keep specials and single alphanumerics; first-occurrence de-duplication;
truncation to 2), and the two concrete examples normalize as claimed. -/
theorem c6_normalize_page_keys :
    (∀ ks : List String, normalize_page_keys (.list (ks.map .str)) = npkSpec ks) ∧
    normalize_page_keys (.list (["Ctrl", "a", "a", "5", "F1", "space"].map .str))
      = ["a", "5"] ∧
    normalize_page_keys (.list (["space", "q"].map .str)) = ["space", "q"] := by
  refine ⟨fun ks => ?_, by decide, by decide⟩
  have h := npkLoop_spec ks [] (by simp)
  simpa [normalize_page_keys, npkSpec] using h

theorem ok_bind {ε α β : Type} (a : α) (f : α → Except ε β) :
    (Except.ok a : Except ε α) >>= f = f a := rfl

theorem error_bind {ε α β : Type} (e : ε) (f : α → Except ε β) :
    (Except.error e : Except ε α) >>= f = Except.error e := rfl

theorem pure_eq_ok {ε α : Type} (a : α) :
    (pure a : Except ε α) = Except.ok a := rfl

theorem pyLtB_num {a b : PyVal} {qa qb : ℚ} (ha : pyNum a = some qa)
    (hb : pyNum b = some qb) : pyLtB a b = some (decide (qa < qb)) := by
  unfold pyLtB
  rw [ha, hb]

theorem pyLtB_some_num {a b : PyVal} {t : Bool} (h : pyLtB a b = some t) :
    ∃ qa qb, pyNum a = some qa ∧ pyNum b = some qb ∧ t = decide (qa < qb) := by
  unfold pyLtB at h
  cases ha : pyNum a with
  | none => rw [ha] at h; cases h
  | some qa =>
    cases hb : pyNum b with
    | none => rw [ha, hb] at h; cases h
    | some qb =>
      rw [ha, hb] at h
      exact ⟨qa, qb, rfl, rfl, (Option.some.injEq _ _ ▸ h).symm⟩

theorem pyMin_idem {a v w : PyVal} (h : pyMin a v = .ok w) :
    pyMin a w = .ok w := by
  unfold pyMin at h ⊢
  cases hlt : pyLtB v a with
  | none => rw [hlt] at h; cases h
  | some t =>
    rw [hlt] at h
    obtain ⟨qv, qa, hqv, hqa, ht⟩ := pyLtB_some_num hlt
    cases t with
    | true =>
      cases h
      rw [hlt]
    | false =>
      cases h
      rw [pyLtB_num hqa hqa]
      simp

theorem pyMinMax_idem {a b v m w : PyVal} {qa qb : ℚ}
    (ha : pyNum a = some qa) (hb : pyNum b = some qb) (hba : qb < qa)
    (h1 : pyMin a v = .ok m) (h2 : pyMax b m = .ok w) :
    ∃ m', pyMin a w = .ok m' ∧ pyMax b m' = .ok w := by
  unfold pyMin at h1
  unfold pyMax at h2
  cases hlt1 : pyLtB v a with
  | none => rw [hlt1] at h1; cases h1
  | some t1 =>
    rw [hlt1] at h1
    obtain ⟨qv, qa', hqv, hqa', ht1⟩ := pyLtB_some_num hlt1
    rw [ha] at hqa'
    cases hqa'
    cases t1 with
    | true =>
      -- m = v with qv < qa
      cases h1
      have hqvlt : qv < qa := of_decide_eq_true ht1.symm
      cases hlt2 : pyLtB b v with
      | none =>
        rw [hlt2] at h2; cases h2
      | some t2 =>
        rw [hlt2] at h2
        obtain ⟨qb', qm, hqb', hqm, ht2⟩ := pyLtB_some_num hlt2
        rw [hb] at hqb'
        cases hqb'
        rw [hqv] at hqm
        cases hqm
        cases t2 with
        | true =>
          -- w = m = v
          cases h2
          refine ⟨v, ?_, ?_⟩
          · unfold pyMin
            rw [hlt1]
          · unfold pyMax
            rw [hlt2]
        | false =>
          -- w = b
          cases h2
          refine ⟨b, ?_, ?_⟩
          · unfold pyMin
            rw [pyLtB_num hb ha]
            simp [hba]
          · unfold pyMax
            rw [pyLtB_num hb hb]
            simp
    | false =>
      -- m = a
      cases h1
      cases hlt2 : pyLtB b a with
      | none => rw [hlt2] at h2; cases h2
      | some t2 =>
        rw [hlt2] at h2
        obtain ⟨qb', qm, hqb', hqm, ht2⟩ := pyLtB_some_num hlt2
        rw [hb] at hqb'
        cases hqb'
        rw [ha] at hqm
        cases hqm
        cases t2 with
        | true =>
          -- w = m = a
          cases h2
          refine ⟨a, ?_, ?_⟩
          · unfold pyMin
            rw [pyLtB_num ha ha]
            simp
          · unfold pyMax
            rw [hlt2]
        | false =>
          -- would need ¬(qb < qa), contradicting hba
          exact absurd hba (by simpa using of_decide_eq_false ht2.symm)

theorem val_clamp_min_idem {hi dflt : PyVal} {v : Option PyVal} {w : PyVal}
    (h : val_clamp_min hi dflt v = .ok w) :
    val_clamp_min hi dflt (some w) = .ok w := by
  unfold val_clamp_min at h ⊢
  exact pyMin_idem h

theorem val_clamp_idem {lo hi dflt : PyVal} {v : Option PyVal} {w : PyVal}
    {qlo qhi : ℚ} (h : val_clamp lo hi dflt v = .ok w)
    (hlo : pyNum lo = some qlo) (hhi : pyNum hi = some qhi)
    (hlt : qlo < qhi) :
    val_clamp lo hi dflt (some w) = .ok w := by
  unfold val_clamp at h ⊢
  cases h1 : pyMin hi (v.getD dflt) with
  | error e => rw [h1, error_bind] at h; cases h
  | ok m =>
    rw [h1, ok_bind] at h
    obtain ⟨m', hm1, hm2⟩ := pyMinMax_idem hhi hlo hlt h1 h
    rw [show (some w).getD dflt = w from rfl, hm1, ok_bind]
    exact hm2

theorem val_font_family_idem (v : Option PyVal) :
    val_font_family (some (val_font_family v)) = val_font_family v := by
  unfold val_font_family
  cases v with
  | none => rfl
  | some pv =>
    cases pv with
    | str s =>
      show val_font_family (some (if valid_fonts.contains s = true then PyVal.str s
        else PyVal.str "Microsoft YaHei")) =
        (if valid_fonts.contains s = true then PyVal.str s
        else PyVal.str "Microsoft YaHei")
      by_cases hs : valid_fonts.contains s = true
      · rw [if_pos hs]
        show (if valid_fonts.contains s = true then PyVal.str s
          else PyVal.str "Microsoft YaHei") = PyVal.str s
        rw [if_pos hs]
      · rw [if_neg hs]
        rfl
    | int n => rfl
    | float q => rfl
    | bool b => rfl
    | list l => rfl

theorem val_custom_key_idem (v : Option PyVal) :
    val_custom_key (some (val_custom_key v)) = val_custom_key v := by
  unfold val_custom_key
  cases v with
  | none => rfl
  | some pv =>
    cases pv with
    | str s =>
      show val_custom_key (some (if valid_keys.contains s = true then PyVal.str s
        else PyVal.str "ctrl")) =
        (if valid_keys.contains s = true then PyVal.str s else PyVal.str "ctrl")
      by_cases hs : valid_keys.contains s = true
      · rw [if_pos hs]
        show (if valid_keys.contains s = true then PyVal.str s
          else PyVal.str "ctrl") = PyVal.str s
        rw [if_pos hs]
      · rw [if_neg hs]
        rfl
    | int n => rfl
    | float q => rfl
    | bool b => rfl
    | list l => rfl

theorem val_color_idem (v : Option PyVal) :
    val_color (val_color v) = val_color v := by
  unfold val_color
  by_cases hv : is_valid_color (v.getD (.str "#000000")) = true
  · simp [hv]
  · simp only [Bool.not_eq_true] at hv
    simp [hv]

theorem val_bool_field_idem (dflt : Bool) (v : Option PyVal) :
    val_bool_field dflt (some (val_bool_field dflt v)) = val_bool_field dflt v := rfl

theorem val_dot_cursor_size_idem {v : Option PyVal} {w : PyVal}
    (h : val_dot_cursor_size v = .ok w) :
    val_dot_cursor_size (some w) = .ok w := by
  unfold val_dot_cursor_size at h ⊢
  cases h1 : pyToInt (v.getD (.int 2)) with
  | error e => rw [h1, error_bind] at h; cases h
  | ok sz =>
    rw [h1, ok_bind, pure_eq_ok] at h
    cases h
    have h2 : pyToInt ((some (PyVal.int (max 1 (min 16 sz)))).getD (.int 2))
        = .ok (max 1 (min 16 sz)) := rfl
    rw [h2, ok_bind, pure_eq_ok]
    have harith : max 1 (min 16 (max 1 (min 16 sz))) = max 1 (min 16 sz) := by
      omega
    rw [harith]

theorem asciiLowerMap_facts : ∀ q ∈ asciiLowerMap,
    asciiLowerMap.find? (fun p => p.1 = q.2) = none ∧
    pyIsSpace q.1 = false ∧ pyIsSpace q.2 = false := by decide

theorem pyLowerChar_idem (c : Char) :
    pyLowerChar (pyLowerChar c) = pyLowerChar c := by
  unfold pyLowerChar
  cases h : asciiLowerMap.find? (fun p => p.1 = c) with
  | none => simp [h]
  | some q =>
    have hq := List.mem_of_find?_eq_some h
    have h2 := (asciiLowerMap_facts q hq).1
    simp [h, h2]

theorem pyIsSpace_pyLowerChar (c : Char) :
    pyIsSpace (pyLowerChar c) = pyIsSpace c := by
  unfold pyLowerChar
  cases h : asciiLowerMap.find? (fun p => p.1 = c) with
  | none => simp [h]
  | some q =>
    have hq := List.mem_of_find?_eq_some h
    have hc' := List.find?_some h
    have hc : q.1 = c := by simpa using hc'
    have hf := asciiLowerMap_facts q hq
    simp only [h, Option.map_some', Option.getD_some]
    rw [hf.2.2, ← hc, hf.2.1]

theorem dropWhile_dropWhile (p : Char → Bool) (l : List Char) :
    (l.dropWhile p).dropWhile p = l.dropWhile p := by
  induction l with
  | nil => simp
  | cons a l ih =>
    by_cases h : p a
    · rw [List.dropWhile_cons_of_pos h]
      exact ih
    · rw [List.dropWhile_cons_of_neg h, List.dropWhile_cons_of_neg h]

theorem dropWhileEnd_idem (p : Char → Bool) (l : List Char) :
    dropWhileEnd p (dropWhileEnd p l) = dropWhileEnd p l := by
  induction l with
  | nil => rfl
  | cons a l ih =>
    rw [dropWhileEnd_cons]
    by_cases h : ((dropWhileEnd p l).isEmpty && p a) = true
    · rw [if_pos h]
      rfl
    · rw [if_neg h, dropWhileEnd_cons, ih]
      rw [if_neg h]

theorem head_not_p_of_dropWhile_fix {p : Char → Bool} {a : Char} {l : List Char}
    (h : (a :: l).dropWhile p = a :: l) : p a = false := by
  by_cases hp : p a
  · rw [List.dropWhile_cons_of_pos hp] at h
    have := length_dropWhile_le p l
    have := congrArg List.length h
    simp at this
    omega
  · simpa using hp

theorem dropWhile_dropWhileEnd_fix {p : Char → Bool} {l : List Char}
    (h : l.dropWhile p = l) :
    (dropWhileEnd p l).dropWhile p = dropWhileEnd p l := by
  cases l with
  | nil => rfl
  | cons a l =>
    have hpa : p a = false := head_not_p_of_dropWhile_fix h
    rw [dropWhileEnd_cons]
    by_cases hc : ((dropWhileEnd p l).isEmpty && p a) = true
    · rw [if_pos hc]
      rfl
    · rw [if_neg hc]
      rw [List.dropWhile_cons_of_neg (by simp [hpa])]

theorem pyStripList_idem (l : List Char) :
    pyStripList (pyStripList l) = pyStripList l := by
  have hA : (l.dropWhile pyIsSpace).dropWhile pyIsSpace = l.dropWhile pyIsSpace :=
    dropWhile_dropWhile pyIsSpace l
  have h1 : (dropWhileEnd pyIsSpace (l.dropWhile pyIsSpace)).dropWhile pyIsSpace
      = dropWhileEnd pyIsSpace (l.dropWhile pyIsSpace) :=
    dropWhile_dropWhileEnd_fix hA
  show dropWhileEnd pyIsSpace ((dropWhileEnd pyIsSpace
    (l.dropWhile pyIsSpace)).dropWhile pyIsSpace) = _
  rw [h1, dropWhileEnd_idem]
  rfl

theorem dropWhile_map_lower (l : List Char) :
    (l.map pyLowerChar).dropWhile pyIsSpace =
    (l.dropWhile pyIsSpace).map pyLowerChar := by
  induction l with
  | nil => simp
  | cons a l ih =>
    by_cases h : pyIsSpace a = true
    · rw [List.map_cons, List.dropWhile_cons_of_pos (by rw [pyIsSpace_pyLowerChar]; exact h),
        List.dropWhile_cons_of_pos h]
      exact ih
    · rw [List.map_cons, List.dropWhile_cons_of_neg (by rw [pyIsSpace_pyLowerChar]; exact h),
        List.dropWhile_cons_of_neg h, List.map_cons]

theorem dropWhileEnd_map_lower (l : List Char) :
    dropWhileEnd pyIsSpace (l.map pyLowerChar) =
    (dropWhileEnd pyIsSpace l).map pyLowerChar := by
  induction l with
  | nil => rfl
  | cons a l ih =>
    rw [List.map_cons, dropWhileEnd_cons, dropWhileEnd_cons, ih,
      pyIsSpace_pyLowerChar]
    have hemp : ((dropWhileEnd pyIsSpace l).map pyLowerChar).isEmpty
        = (dropWhileEnd pyIsSpace l).isEmpty := by
      cases dropWhileEnd pyIsSpace l <;> rfl
    rw [hemp]
    by_cases h : ((dropWhileEnd pyIsSpace l).isEmpty && pyIsSpace a) = true
    · rw [if_pos h, if_pos h]
      rfl
    · rw [if_neg h, if_neg h, List.map_cons]

theorem pyStripList_map_lower (l : List Char) :
    pyStripList (l.map pyLowerChar) = (pyStripList l).map pyLowerChar := by
  unfold pyStripList
  rw [dropWhile_map_lower, dropWhileEnd_map_lower]

theorem map_pyLowerChar_idem (l : List Char) :
    (l.map pyLowerChar).map pyLowerChar = l.map pyLowerChar := by
  rw [List.map_map]
  have : pyLowerChar ∘ pyLowerChar = pyLowerChar := funext pyLowerChar_idem
  rw [this]

theorem npkNorm_idem (s : String) : npkNorm (npkNorm s) = npkNorm s := by
  show String.mk ((pyStripList ((pyStripList s.data).map pyLowerChar)).map pyLowerChar)
    = String.mk ((pyStripList s.data).map pyLowerChar)
  rw [pyStripList_map_lower, pyStripList_idem, map_pyLowerChar_idem]

theorem npkAccept_parts {kk : String} (h : npkAccept kk = true) :
    (decide (kk = "") || npkForbidden.contains kk) = false ∧
    (npkSpecials.contains kk || npkSingleAlnum kk) = true := by
  unfold npkAccept at h
  cases h1 : (decide (kk = "") || npkForbidden.contains kk) <;>
    cases h2 : (npkSpecials.contains kk || npkSingleAlnum kk) <;>
      rw [h1, h2] at h <;> simp_all

theorem npkLoop_good (ks : List PyVal) : ∀ acc : List String,
    (∀ x ∈ acc, GoodTok x) → acc.Nodup →
    (∀ x ∈ npkLoop ks acc, GoodTok x) ∧ (npkLoop ks acc).Nodup := by
  induction ks with
  | nil =>
    intro acc h1 h2
    exact ⟨h1, h2⟩
  | cons k ks ih =>
    intro acc h1 h2
    cases k with
    | int n => exact ih acc h1 h2
    | float q => exact ih acc h1 h2
    | bool b => exact ih acc h1 h2
    | list l => exact ih acc h1 h2
    | str s =>
      show (∀ x ∈ (if (decide (npkNorm s = "") || npkForbidden.contains (npkNorm s)) = true
          then npkLoop ks acc
          else
            let acc' :=
              if npkSpecials.contains (npkNorm s) = true then
                if acc.contains (npkNorm s) = true then acc else acc ++ [npkNorm s]
              else if npkSingleAlnum (npkNorm s) = true then
                if acc.contains (npkNorm s) = true then acc else acc ++ [npkNorm s]
              else acc
            if 2 ≤ acc'.length then acc' else npkLoop ks acc'), GoodTok x) ∧
          List.Nodup (if (decide (npkNorm s = "") || npkForbidden.contains (npkNorm s)) = true
          then npkLoop ks acc
          else
            let acc' :=
              if npkSpecials.contains (npkNorm s) = true then
                if acc.contains (npkNorm s) = true then acc else acc ++ [npkNorm s]
              else if npkSingleAlnum (npkNorm s) = true then
                if acc.contains (npkNorm s) = true then acc else acc ++ [npkNorm s]
              else acc
            if 2 ≤ acc'.length then acc' else npkLoop ks acc')
      by_cases h1c : (decide (npkNorm s = "") || npkForbidden.contains (npkNorm s)) = true
      · rw [if_pos h1c]
        exact ih acc h1 h2
      · rw [if_neg h1c]
        simp only []
        have h1c' : (decide (npkNorm s = "") || npkForbidden.contains (npkNorm s)) = false := by
          revert h1c
          cases (decide (npkNorm s = "") || npkForbidden.contains (npkNorm s)) <;> simp
        -- facts about the possibly-appended token
        have hgood : npkSpecials.contains (npkNorm s) = true ∨
            npkSingleAlnum (npkNorm s) = true →
            GoodTok (npkNorm s) := by
          intro hsel
          refine ⟨npkNorm_idem s, ?_⟩
          unfold npkAccept
          rw [h1c']
          simp only [Bool.not_false, Bool.true_and]
          rcases hsel with hs | hs
          · rw [hs, Bool.true_or]
          · rw [hs, Bool.or_true]
        have hmain : ∀ acc'' : List String,
            (∀ x ∈ acc'', GoodTok x) → acc''.Nodup →
            (∀ x ∈ (if 2 ≤ acc''.length then acc'' else npkLoop ks acc''), GoodTok x) ∧
            List.Nodup (if 2 ≤ acc''.length then acc'' else npkLoop ks acc'') := by
          intro acc'' hg hn
          by_cases hlen : 2 ≤ acc''.length
          · rw [if_pos hlen]
            exact ⟨hg, hn⟩
          · rw [if_neg hlen]
            exact ih acc'' hg hn
        have happ : (∀ x ∈ acc ++ [npkNorm s], GoodTok x) →
            acc.contains (npkNorm s) = false → (acc ++ [npkNorm s]).Nodup := by
          intro _ hmem
          rw [List.nodup_append]
          refine ⟨h2, List.nodup_singleton _, ?_⟩
          intro x hx hx1
          rw [List.mem_singleton] at hx1
          rw [hx1] at hx
          have hdec := List.elem_eq_mem (npkNorm s) acc
          rw [show List.contains acc (npkNorm s) = List.elem (npkNorm s) acc from rfl]
            at hmem
          rw [hmem] at hdec
          exact absurd hx (of_decide_eq_false hdec.symm)
        by_cases hsp : npkSpecials.contains (npkNorm s) = true
        · rw [if_pos hsp]
          by_cases hmem : acc.contains (npkNorm s) = true
          · rw [if_pos hmem]
            exact hmain acc h1 h2
          · rw [if_neg hmem]
            have hmem' : acc.contains (npkNorm s) = false := by
              revert hmem; cases acc.contains (npkNorm s) <;> simp
            have hg : ∀ x ∈ acc ++ [npkNorm s], GoodTok x := by
              intro x hx
              rcases List.mem_append.mp hx with hx | hx
              · exact h1 x hx
              · rw [List.mem_singleton] at hx
                subst hx
                exact hgood (Or.inl hsp)
            exact hmain _ hg (happ hg hmem')
        · rw [if_neg hsp]
          by_cases hsa : npkSingleAlnum (npkNorm s) = true
          · rw [if_pos hsa]
            by_cases hmem : acc.contains (npkNorm s) = true
            · rw [if_pos hmem]
              exact hmain acc h1 h2
            · rw [if_neg hmem]
              have hmem' : acc.contains (npkNorm s) = false := by
                revert hmem; cases acc.contains (npkNorm s) <;> simp
              have hg : ∀ x ∈ acc ++ [npkNorm s], GoodTok x := by
                intro x hx
                rcases List.mem_append.mp hx with hx | hx
                · exact h1 x hx
                · rw [List.mem_singleton] at hx
                  subst hx
                  exact hgood (Or.inr hsa)
              exact hmain _ hg (happ hg hmem')
          · rw [if_neg hsa]
            exact hmain acc h1 h2

theorem npkLoop_single_good (a : String) (ha : GoodTok a) :
    npkLoop [PyVal.str a] [] = [a] := by
  obtain ⟨hn, hacc⟩ := ha
  obtain ⟨hc1, hsel⟩ := npkAccept_parts hacc
  show (if (decide (npkNorm a = "") || npkForbidden.contains (npkNorm a)) = true
    then npkLoop [] []
    else
      let acc' :=
        if npkSpecials.contains (npkNorm a) = true then
          if ([] : List String).contains (npkNorm a) = true then [] else [] ++ [npkNorm a]
        else if npkSingleAlnum (npkNorm a) = true then
          if ([] : List String).contains (npkNorm a) = true then [] else [] ++ [npkNorm a]
        else []
      if 2 ≤ acc'.length then acc' else npkLoop [] acc') = [a]
  rw [hn, hc1]
  simp only [Bool.false_eq_true, if_false]
  have hnc : (([] : List String).contains a) = false := rfl
  by_cases hsp : npkSpecials.contains a = true
  · rw [if_pos hsp, hnc]
    simp [npkLoop]
  · rw [if_neg hsp]
    have hsa : npkSingleAlnum a = true := by
      rcases Bool.or_eq_true_iff.mp hsel with hs | hs
      · exact absurd hs hsp
      · exact hs
    rw [if_pos hsa, hnc]
    simp [npkLoop]

theorem npkLoop_pair_good (a b : String) (ha : GoodTok a) (hb : GoodTok b)
    (hne : b ≠ a) : npkLoop [PyVal.str a, PyVal.str b] [] = [a, b] := by
  obtain ⟨hna, hacca⟩ := ha
  obtain ⟨hc1a, hsela⟩ := npkAccept_parts hacca
  obtain ⟨hnb, haccb⟩ := hb
  obtain ⟨hc1b, hselb⟩ := npkAccept_parts haccb
  have hstep2 : npkLoop [PyVal.str b] [a] = [a, b] := by
    show (if (decide (npkNorm b = "") || npkForbidden.contains (npkNorm b)) = true
      then npkLoop [] [a]
      else
        let acc' :=
          if npkSpecials.contains (npkNorm b) = true then
            if [a].contains (npkNorm b) = true then [a] else [a] ++ [npkNorm b]
          else if npkSingleAlnum (npkNorm b) = true then
            if [a].contains (npkNorm b) = true then [a] else [a] ++ [npkNorm b]
          else [a]
        if 2 ≤ acc'.length then acc' else npkLoop [] acc') = [a, b]
    rw [hnb, hc1b]
    simp only [Bool.false_eq_true, if_false]
    have hnc : ([a].contains b) = false := by
      show (b == a || List.elem b []) = false
      rw [beq_eq_false_iff_ne.mpr hne]
      rfl
    by_cases hsp : npkSpecials.contains b = true
    · rw [if_pos hsp, hnc]
      simp
    · rw [if_neg hsp]
      have hsa : npkSingleAlnum b = true := by
        rcases Bool.or_eq_true_iff.mp hselb with hs | hs
        · exact absurd hs hsp
        · exact hs
      rw [if_pos hsa, hnc]
      simp
  show (if (decide (npkNorm a = "") || npkForbidden.contains (npkNorm a)) = true
    then npkLoop [PyVal.str b] []
    else
      let acc' :=
        if npkSpecials.contains (npkNorm a) = true then
          if ([] : List String).contains (npkNorm a) = true then [] else [] ++ [npkNorm a]
        else if npkSingleAlnum (npkNorm a) = true then
          if ([] : List String).contains (npkNorm a) = true then [] else [] ++ [npkNorm a]
        else []
      if 2 ≤ acc'.length then acc' else npkLoop [PyVal.str b] acc') = [a, b]
  rw [hna, hc1a]
  simp only [Bool.false_eq_true, if_false]
  have hnc : (([] : List String).contains a) = false := rfl
  by_cases hsp : npkSpecials.contains a = true
  · rw [if_pos hsp, hnc]
    simpa using hstep2
  · rw [if_neg hsp]
    have hsa : npkSingleAlnum a = true := by
      rcases Bool.or_eq_true_iff.mp hsela with hs | hs
      · exact absurd hs hsp
      · exact hs
    rw [if_pos hsa, hnc]
    simpa using hstep2

theorem normalize_page_keys_fixed (w : PyVal) :
    normalize_page_keys (.list ((normalize_page_keys w).map .str))
      = normalize_page_keys w := by
  cases w with
  | int n => rfl
  | float q => rfl
  | str s => rfl
  | bool b => rfl
  | list ks =>
    have hfacts := npkLoop_good ks [] (by intro x hx; simp at hx) List.nodup_nil
    have hgood : ∀ x ∈ (npkLoop ks []).take 2, GoodTok x :=
      fun x hx => hfacts.1 x (List.take_subset 2 _ hx)
    have hnodup : ((npkLoop ks []).take 2).Nodup :=
      hfacts.2.sublist (List.take_sublist 2 _)
    have hlen : ((npkLoop ks []).take 2).length ≤ 2 := by
      simpa using List.length_take_le 2 (npkLoop ks [])
    show normalize_page_keys (.list (((npkLoop ks []).take 2).map .str))
      = (npkLoop ks []).take 2
    generalize hres : (npkLoop ks []).take 2 = res at hgood hnodup hlen ⊢
    cases res with
    | nil => rfl
    | cons a t =>
      cases t with
      | nil =>
        show (npkLoop [PyVal.str a] []).take 2 = [a]
        rw [npkLoop_single_good a (hgood a (by simp))]
        rfl
      | cons b t' =>
        cases t' with
        | nil =>
          have hne : b ≠ a := by
            have := List.nodup_cons.mp hnodup
            intro hba
            exact this.1 (by rw [← hba]; simp)
          show (npkLoop [PyVal.str a, PyVal.str b] []).take 2 = [a, b]
          rw [npkLoop_pair_good a b (hgood a (by simp)) (hgood b (by simp)) hne]
          rfl
        | cons c t'' => simp at hlen

theorem val_page_keys_idem (v : Option PyVal) :
    val_page_keys (some (val_page_keys v)) = val_page_keys v := by
  unfold val_page_keys
  rw [show (some (PyVal.list ((normalize_page_keys
      (v.getD (.list []))).map .str))).getD (.list [])
    = PyVal.list ((normalize_page_keys (v.getD (.list []))).map .str) from rfl]
  rw [normalize_page_keys_fixed]

theorem bind_ok_destruct {ε α β : Type} {x : Except ε α} {f : α → Except ε β}
    {b : β} (h : x >>= f = .ok b) : ∃ a, x = .ok a ∧ f a = .ok b := by
  cases x with
  | error e => rw [error_bind] at h; cases h
  | ok a =>
    rw [ok_bind] at h
    exact ⟨a, rfl, h⟩

/-- C9: `validate_config` is idempotent: whenever it succeeds on a
configuration dictionary, running it again on its own output returns the
same dictionary unchanged. -/
theorem c9_validate_config_idempotent (c c' : Config)
    (h : validate_config c = .ok c') : validate_config c' = .ok c' := by
  unfold validate_config at h ⊢
  obtain ⟨ww, hww, h⟩ := bind_ok_destruct h
  obtain ⟨wh, hwh, h⟩ := bind_ok_destruct h
  obtain ⟨wx, hwx, h⟩ := bind_ok_destruct h
  obtain ⟨wy, hwy, h⟩ := bind_ok_destruct h
  obtain ⟨wop, hwop, h⟩ := bind_ok_destruct h
  obtain ⟨top, htop, h⟩ := bind_ok_destruct h
  obtain ⟨dcop, hdcop, h⟩ := bind_ok_destruct h
  obtain ⟨fsz, hfsz, h⟩ := bind_ok_destruct h
  obtain ⟨dcs, hdcs, h⟩ := bind_ok_destruct h
  rw [pure_eq_ok] at h
  injection h with h'
  subst h'
  dsimp only
  rw [val_clamp_min_idem hww, ok_bind, val_clamp_min_idem hwh, ok_bind,
    val_clamp_idem hwx rfl rfl (by norm_num), ok_bind,
    val_clamp_idem hwy rfl rfl (by norm_num), ok_bind,
    val_clamp_idem hwop rfl rfl (by decide), ok_bind,
    val_clamp_idem htop rfl rfl (by decide), ok_bind,
    val_clamp_idem hdcop rfl rfl (by decide), ok_bind,
    val_clamp_idem hfsz rfl rfl (by norm_num), ok_bind,
    val_dot_cursor_size_idem hdcs, ok_bind]
  simp only [val_font_family_idem, val_color_idem, val_custom_key_idem,
    val_bool_field_idem, val_page_keys_idem]
  rfl

/-- Closed witness for `c9_validate_config_idempotent` at the empty
configuration dictionary, whose validation succeeds with the defaults. -/
theorem c9_witness :
    validate_config
      { window_width := some (.int 400)
        window_height := some (.int 300)
        window_x := some (.int 100)
        window_y := some (.int 100)
        window_opacity := some (.float (Rat.mk' 9 10))
        text_opacity := some (.float (Rat.mk' 1 1))
        dot_cursor_opacity := some (.float (Rat.mk' 1 1))
        font_size := some (.int 12)
        font_family := some (.str "Microsoft YaHei")
        font_color := none
        dot_cursor_color := none
        stay_on_top := some (.bool true)
        auto_save_position := some (.bool true)
        hover_to_show := some (.bool false)
        key_to_show := some (.bool false)
        custom_key := some (.str "ctrl")
        dot_cursor_size := some (.int 2)
        page_up_keys := some (.list [])
        page_down_keys := some (.list [])
        rest := [] } = .ok
      { window_width := some (.int 400)
        window_height := some (.int 300)
        window_x := some (.int 100)
        window_y := some (.int 100)
        window_opacity := some (.float (Rat.mk' 9 10))
        text_opacity := some (.float (Rat.mk' 1 1))
        dot_cursor_opacity := some (.float (Rat.mk' 1 1))
        font_size := some (.int 12)
        font_family := some (.str "Microsoft YaHei")
        font_color := none
        dot_cursor_color := none
        stay_on_top := some (.bool true)
        auto_save_position := some (.bool true)
        hover_to_show := some (.bool false)
        key_to_show := some (.bool false)
        custom_key := some (.str "ctrl")
        dot_cursor_size := some (.int 2)
        page_up_keys := some (.list [])
        page_down_keys := some (.list [])
        rest := [] } :=
  c9_validate_config_idempotent {} _ (by rfl)

/-- C2 counterexample: for a book whose `get_items()` order is `a, b` but
whose spine order is `b, a`, `read_epub_file` returns the texts in
`get_items()` order ("Alpha", then "Beta"), while the claimed spine-first
extraction would return spine order ("Beta", then "Alpha"). -/
theorem c2_counterexample :
    read_epub_file "b.epub" true epubOrderBook = .ok "Alpha\n\nBeta" ∧
    read_epub_spine_first epubOrderBook = .ok "Beta\n\nAlpha" ∧
    ("Alpha\n\nBeta" : String) ≠ "Beta\n\nAlpha" :=
  ⟨rfl, rfl, by decide⟩

/-- C2 (amended): `read_epub_file` extracts text by iterating ALL HTML
items in `get_items()` (document) order first — decoding each as UTF-8
(a decode failure aborts the whole read with an error), stripping markup
via `extract_text_from_html`, concatenating the non-empty results with a
blank line — and only when that yields an EMPTY list does it fall back to
`extract_all_text_from_epub` (spine order, itself falling back to
document order on error). -/
theorem c2_epub_extraction_order (path : String) (book : EpubBook)
    (hpath : lowerEndsWith path ".epub" = true) :
    (∀ ts, itemsExtractStrict book.items = some ts → ts ≠ [] →
      read_epub_file path true book =
        (if pyStrip (joinSep "\n\n" ts) = "" then
          .error "EPUB文件中没有找到可读的文本内容"
        else .ok (joinSep "\n\n" ts))) ∧
    (itemsExtractStrict book.items = some [] →
      read_epub_file path true book =
        (if pyStrip (joinSep "\n\n" (extract_all_text_from_epub book)) = "" then
          .error "EPUB文件中没有找到可读的文本内容"
        else .ok (joinSep "\n\n" (extract_all_text_from_epub book)))) ∧
    (itemsExtractStrict book.items = none →
      read_epub_file path true book = .error "读取EPUB文件失败") := by
  have hguards : read_epub_file path true book =
      (match itemsExtractStrict book.items with
      | none => .error "读取EPUB文件失败"
      | some ts =>
        let texts := if ts.isEmpty then extract_all_text_from_epub book else ts
        let full_text := joinSep "\n\n" texts
        if pyStrip full_text = "" then .error "EPUB文件中没有找到可读的文本内容"
        else .ok full_text) := by
    unfold read_epub_file
    rw [hpath]
    simp
  refine ⟨?_, ?_, ?_⟩
  · intro ts hts htsne
    rw [hguards, hts]
    have : ts.isEmpty = false := by
      cases ts with
      | nil => exact absurd rfl htsne
      | cons t ts' => rfl
    simp only [this, Bool.false_eq_true, if_false]
  · intro hts
    rw [hguards, hts]
    rfl
  · intro hts
    rw [hguards, hts]

/-- Closed witness for `c2_epub_extraction_order` at the two-document
book. -/
theorem c2_witness :
    read_epub_file "b.epub" true epubOrderBook =
      (if pyStrip (joinSep "\n\n" ["Alpha", "Beta"]) = "" then
        .error "EPUB文件中没有找到可读的文本内容"
      else .ok (joinSep "\n\n" ["Alpha", "Beta"])) :=
  (c2_epub_extraction_order "b.epub" epubOrderBook (by decide)).1
    ["Alpha", "Beta"] (by rfl) (by decide)

/-- C3: an existing file whose extension is neither `.txt` nor `.epub` but
which passes the EPUB signature probe is routed to `read_epub_file`, whose
extension guard immediately rejects it: `read_file_content` returns the
error "文件不是EPUB格式" with no content, although the signature probe's
only purpose is to have such files read as EPUB (the spec's and the
dispatcher's intent). -/
theorem c3_signature_epub_rejected (f : FSFile)
    (hex : f.fileExists = true)
    (htxt : splitext_ext_lower f.path ≠ ".txt")
    (hepub : splitext_ext_lower f.path ≠ ".epub")
    (hend : lowerEndsWith f.path ".epub" = false)
    (hsig : epubSignatureOk f = true) :
    read_file_content f = .error "文件不是EPUB格式" := by
  unfold read_file_content
  rw [hex]
  simp only [Bool.true_eq_false, if_false]
  rw [if_neg htxt, if_neg hepub]
  have hisepub : is_epub_file f = true := by
    unfold is_epub_file
    rw [hex, hend]
    simp [hsig]
  rw [hisepub]
  simp only [if_true]
  unfold read_epub_file
  simp only [Bool.true_eq_false, if_false]
  rw [hend]
  simp

/-- Closed witness for `c3_signature_epub_rejected` at the concrete
signature-valid `.dat` file. -/
theorem c3_witness : read_file_content datFile = .error "文件不是EPUB格式" :=
  c3_signature_epub_rejected datFile rfl (by decide) (by decide) rfl rfl

/-- Every chapter emitted by the scan either was already in `acc` or lies at
a line at or after `lineNum`, with `char_position` equal to `charPos` plus
the lengths (+1 each) of the lines consumed before its line. -/
theorem scanLines_mem (minLen maxC : ℕ) (lines : List String) :
    ∀ (lineNum charPos : ℕ) (acc : List Chapter) (ch : Chapter),
    ch ∈ scanLines minLen maxC lines lineNum charPos acc →
    ch ∈ acc ∨
      (lineNum ≤ ch.line_number ∧
        ch.char_position = charPos +
          ((lines.take (ch.line_number - lineNum)).map
            (fun l => l.data.length + 1)).sum) := by
  induction lines with
  | nil =>
    intro lineNum charPos acc ch h
    exact Or.inl h
  | cons line rest ih =>
    intro lineNum charPos acc ch h
    simp only [scanLines] at h
    have step : ∀ acc₀ : List Chapter,
        ch ∈ scanLines minLen maxC rest (lineNum + 1)
          (charPos + line.data.length + 1) acc₀ →
        ch ∈ acc₀ ∨
          (lineNum ≤ ch.line_number ∧
            ch.char_position = charPos +
              (((line :: rest).take (ch.line_number - lineNum)).map
                (fun l => l.data.length + 1)).sum) := by
      intro acc₀ h₀
      rcases ih (lineNum + 1) (charPos + line.data.length + 1) acc₀ ch h₀ with hin | ⟨hle, hpos⟩
      · exact Or.inl hin
      · right
        refine ⟨by omega, ?_⟩
        have hk : ch.line_number - lineNum = (ch.line_number - (lineNum + 1)) + 1 := by
          omega
        rw [hk, List.take_succ_cons, List.map_cons, List.sum_cons]
        omega
    have happ : ch ∈ acc ++ [(⟨pyStrip line, lineNum, charPos,
          determine_chapter_level (pyStrip line)⟩ : Chapter)] →
        ch ∈ acc ∨
          (lineNum ≤ ch.line_number ∧
            ch.char_position = charPos +
              (((line :: rest).take (ch.line_number - lineNum)).map
                (fun l => l.data.length + 1)).sum) := by
      intro hx
      rcases List.mem_append.1 hx with hx1 | hx2
      · exact Or.inl hx1
      · have hxe : ch = ⟨pyStrip line, lineNum, charPos,
            determine_chapter_level (pyStrip line)⟩ := by
          simpa using hx2
        right
        subst hxe
        simp
    split at h
    · exact step acc h
    · split at h
      · exact step acc h
      · split at h
        · -- a pattern matched: acc′ = acc ++ [new]
          split at h
          · exact happ h
          · rcases step _ h with hin | hpos
            · exact happ hin
            · exact Or.inr hpos
        · -- no pattern matched: acc′ = acc
          split at h
          · exact Or.inl h
          · exact step acc h

/-- The scan keeps chapter line numbers strictly increasing. -/
theorem scanLines_pairwise (minLen maxC : ℕ) (lines : List String) :
    ∀ (lineNum charPos : ℕ) (acc : List Chapter),
    (∀ c ∈ acc, c.line_number < lineNum) →
    List.Pairwise (fun a b : Chapter => a.line_number < b.line_number) acc →
    List.Pairwise (fun a b : Chapter => a.line_number < b.line_number)
      (scanLines minLen maxC lines lineNum charPos acc) := by
  induction lines with
  | nil =>
    intro lineNum charPos acc _ hp
    exact hp
  | cons line rest ih =>
    intro lineNum charPos acc hbd hp
    simp only [scanLines]
    have hbd1 : ∀ c ∈ acc, c.line_number < lineNum + 1 := by
      intro c hc; exact Nat.lt_succ_of_lt (hbd c hc)
    have happ_bd : ∀ c ∈ acc ++ [(⟨pyStrip line, lineNum, charPos,
          determine_chapter_level (pyStrip line)⟩ : Chapter)],
        c.line_number < lineNum + 1 := by
      intro c hc
      rcases List.mem_append.1 hc with hc1 | hc2
      · exact Nat.lt_succ_of_lt (hbd c hc1)
      · have : c = ⟨pyStrip line, lineNum, charPos,
            determine_chapter_level (pyStrip line)⟩ := by simpa using hc2
        subst this
        exact Nat.lt_succ_self lineNum
    have happ_pw : List.Pairwise (fun a b : Chapter => a.line_number < b.line_number)
        (acc ++ [(⟨pyStrip line, lineNum, charPos,
          determine_chapter_level (pyStrip line)⟩ : Chapter)]) := by
      rw [List.pairwise_append]
      refine ⟨hp, List.pairwise_singleton _ _, ?_⟩
      intro a ha b hb
      have hb1 : b = ⟨pyStrip line, lineNum, charPos,
          determine_chapter_level (pyStrip line)⟩ := by simpa using hb
      subst hb1
      exact hbd a ha
    split
    · exact ih (lineNum + 1) _ acc hbd1 hp
    · split
      · exact ih (lineNum + 1) _ acc hbd1 hp
      · split
        · split
          · exact happ_pw
          · exact ih (lineNum + 1) _ _ happ_bd happ_pw
        · split
          · exact hp
          · exact ih (lineNum + 1) _ acc hbd1 hp

/-- The dedup/validity filter returns a sublist of its input. -/
theorem filterLoop_sublist : ∀ (l : List Chapter) (lastTitle : String),
    (filterLoop l lastTitle).Sublist l := by
  intro l
  induction l with
  | nil => intro lastTitle; simp [filterLoop]
  | cons ch rest ih =>
    intro lastTitle
    simp only [filterLoop]
    split
    · split
      · exact (ih ch.title).cons₂ ch
      · exact (ih lastTitle).cons ch
    · exact (ih lastTitle).cons ch

/-- A title accepted by `_is_valid_chapter_title` is non-empty. -/
theorem valid_title_ne_empty (t : String)
    (h : is_valid_chapter_title t = true) : t ≠ "" := by
  intro he
  subst he
  exact absurd h (by decide)

/-- Two non-empty titles that `_is_similar_title` declares dissimilar have
different first-10-character prefixes. -/
theorem similar_false_take10 (t1 t2 : String) (h1 : t1 ≠ "") (h2 : t2 ≠ "")
    (h : is_similar_title t1 t2 = false) :
    ¬ (t1.data.take 10 = t2.data.take 10) := by
  unfold is_similar_title at h
  rw [if_neg] at h
  · exact of_decide_eq_false h
  · simp [h1, h2]

/-- The filter loop output: consecutive retained chapters have different
first-10-character title prefixes, and its head (if any) is valid and
dissimilar to the incoming last title. -/
theorem filterLoop_spec : ∀ (l : List Chapter) (lastTitle : String),
    List.Chain' (fun a b : Chapter =>
      ¬ (a.title.data.take 10 = b.title.data.take 10)) (filterLoop l lastTitle) ∧
    (∀ h : Chapter, (filterLoop l lastTitle).head? = some h →
      is_valid_chapter_title h.title = true ∧
      is_similar_title h.title lastTitle = false) := by
  intro l
  induction l with
  | nil =>
    intro lastTitle
    refine ⟨by simp [filterLoop], ?_⟩
    intro h hh
    simp [filterLoop] at hh
  | cons ch rest ih =>
    intro lastTitle
    simp only [filterLoop]
    split
    · rename_i hv
      split
      · rename_i hcond
        simp only [Bool.and_eq_true, decide_eq_true_eq, Bool.not_eq_true'] at hcond
        constructor
        · rw [List.chain'_cons']
          refine ⟨?_, (ih ch.title).1⟩
          intro y hy
          have hy2 := (ih ch.title).2 y hy
          have hne := similar_false_take10 y.title ch.title
            (valid_title_ne_empty _ hy2.1) (valid_title_ne_empty _ hv) hy2.2
          intro he
          exact hne he.symm
        · intro h hh
          have hh2 : ch = h := by simpa using hh
          subst hh2
          exact ⟨hv, hcond.2⟩
      · exact ih lastTitle
    · exact ih lastTitle

/-- C8: for every input, `_filter_and_sort_chapters` never keeps two
consecutive chapters whose titles agree on their first 10 characters
(identical titles in particular), and the two-identical-headings text
"第一章：测试\n第一章：测试" parses to exactly one chapter. -/
theorem c8_consecutive_title_dedup :
    (∀ chapters : List Chapter,
      List.Chain' (fun a b : Chapter =>
        ¬ (a.title.data.take 10 = b.title.data.take 10))
        (filter_and_sort_chapters chapters)) ∧
    parse_contents "第一章：测试\n第一章：测试" =
      [⟨"第一章：测试", 1, 0, 2⟩] := by
  constructor
  · intro chapters
    unfold filter_and_sort_chapters
    split
    · simp
    · exact (filterLoop_spec _ "").1
  · decide

/-- C10: every chapter returned by `parse_contents` has `char_position`
equal to the sum of (length + 1) over the lines before its (1-based)
`line_number`, and the returned list is strictly increasing in
`line_number`. -/
theorem c10_positions_and_monotone (text : String) :
    (∀ ch ∈ parse_contents text,
      ch.char_position =
        (((pySplitNL text).take (ch.line_number - 1)).map
          (fun l => l.data.length + 1)).sum) ∧
    List.Pairwise (fun a b : Chapter => a.line_number < b.line_number)
      (parse_contents text) := by
  have hscan_pw := scanLines_pairwise 3 1000 (pySplitNL text) 1 0 []
    (by simp) List.Pairwise.nil
  have hsorted : List.Sorted chLe (scanLines 3 1000 (pySplitNL text) 1 0 []) :=
    hscan_pw.imp fun hab => Nat.le_of_lt hab
  have hsub : (parse_contents text).Sublist
      (scanLines 3 1000 (pySplitNL text) 1 0 []) := by
    unfold parse_contents filter_and_sort_chapters
    split
    · exact List.nil_sublist _
    · rw [hsorted.insertionSort_eq]
      exact filterLoop_sublist _ ""
  constructor
  · intro ch hch
    rcases scanLines_mem 3 1000 (pySplitNL text) 1 0 [] ch (hsub.subset hch) with
      h0 | ⟨hle, hpos⟩
    · exact absurd h0 (List.not_mem_nil ch)
    · simpa using hpos
  · exact hscan_pw.sublist hsub

/-- C10 witness: in "abc\n第一章：测试" the chapter sits on line 2 at
character position 4 = (3 + 1). -/
theorem c10_witness :
    (⟨"第一章：测试", 2, 4, 2⟩ : Chapter).char_position =
      (((pySplitNL "abc\n第一章：测试").take
        ((⟨"第一章：测试", 2, 4, 2⟩ : Chapter).line_number - 1)).map
        (fun l => l.data.length + 1)).sum :=
  (c10_positions_and_monotone "abc\n第一章：测试").1
    ⟨"第一章：测试", 2, 4, 2⟩ (by decide)

end ReadFish
